import Mathlib

/-!
Shallow embedding of the dbcor data-access layer:
row conversion (src/Row.ts, src/ColumnFunctions.ts, src/ColumnKind.ts),
the nested transaction session (src/Database.ts) and the
DynamicTable operations (src/DynamicTable.ts).
-/

namespace Dbcor

/-- JS runtime values that cross the row-conversion boundary.
`undefined` is JavaScript `undefined` (an absent value); `null` is explicit. -/
inductive JsValue where
  | undefined
  | null
  | bool (b : Bool)
  | num (n : Int)
  | str (s : String)
deriving DecidableEq, Repr

deriving instance DecidableEq for Except

/-- JS `Boolean(v)` truthiness coercion, restricted to the value universe. -/
def jsTruthy : JsValue → Bool
  | .undefined => false
  | .null => false
  | .bool b => b
  | .num n => n != 0
  | .str s => s != ""

/-- JS `Boolean` as a value transform (used by `booleanColumn.toUser/toDatabase`). -/
def jsBoolean (v : JsValue) : JsValue := .bool (jsTruthy v)

/-- The column kinds of `ColumnKind.ts`. -/
inductive ColumnKind where
  | boolean
  | integer
  | number
  | string
  | datetime
  | uuid
  | id
  | external
  | created
  | updated
deriving DecidableEq, Repr

/-- `ColumnModifiable<Kind>` of `ColumnKind.ts`: id/external/created/updated
columns are never modifiable, all others are. -/
def ColumnModifiable : ColumnKind → Bool
  | .id => false
  | .external => false
  | .created => false
  | .updated => false
  | _ => true

/-- A column definition (`Column.ts`): kind, requiredness, modifiability and
the paired value transforms. The `default` field of the source carries no
conversion behaviour and is omitted. -/
structure Column where
  kind : ColumnKind
  required : Bool
  modifiable : Bool
  toUser : JsValue → JsValue
  toDatabase : JsValue → JsValue

/-- In TypeScript the `modifiable` field's type is `ColumnModifiable<Kind>`,
a literal type, so any well-typed column agrees with the kind table. -/
def WellTypedCol (c : Column) : Prop := c.modifiable = ColumnModifiable c.kind

instance (c : Column) : Decidable (WellTypedCol c) := by
  unfold WellTypedCol
  infer_instance

/-- `booleanColumn` of `ColumnFunctions.ts`: both transforms are JS `Boolean`. -/
def booleanColumn (required : Bool) : Column :=
  { kind := .boolean, required, modifiable := true,
    toUser := jsBoolean, toDatabase := jsBoolean }

/-- `integerColumn` of `ColumnFunctions.ts`: identity transforms. -/
def integerColumn (required : Bool) : Column :=
  { kind := .integer, required, modifiable := true,
    toUser := id, toDatabase := id }

/-- `numberColumn` of `ColumnFunctions.ts`: identity transforms. -/
def numberColumn (required : Bool) : Column :=
  { kind := .number, required, modifiable := true,
    toUser := id, toDatabase := id }

/-- `stringColumn` of `ColumnFunctions.ts`: identity transforms. -/
def stringColumn (required : Bool) : Column :=
  { kind := .string, required, modifiable := true,
    toUser := id, toDatabase := id }

/-- `uuidColumn` of `ColumnFunctions.ts`: identity transforms. -/
def uuidColumn (required : Bool) : Column :=
  { kind := .uuid, required, modifiable := true,
    toUser := id, toDatabase := id }

/-- `datetimeColumn` of `ColumnFunctions.ts`; the luxon/DatabaseDate
transforms are abstracted as parameters. -/
def datetimeColumn (required : Bool) (toU toD : JsValue → JsValue) : Column :=
  { kind := .datetime, required, modifiable := true, toUser := toU, toDatabase := toD }

/-- `idColumn` of `ColumnFunctions.ts`: required, not modifiable, identity. -/
def idColumn : Column :=
  { kind := .id, required := true, modifiable := false, toUser := id, toDatabase := id }

/-- `externalColumn` of `ColumnFunctions.ts`: required, not modifiable, identity. -/
def externalColumn : Column :=
  { kind := .external, required := true, modifiable := false, toUser := id, toDatabase := id }

/-- `createdColumn` of `ColumnFunctions.ts`; date transforms abstracted. -/
def createdColumn (toU toD : JsValue → JsValue) : Column :=
  { kind := .created, required := true, modifiable := false, toUser := toU, toDatabase := toD }

/-- `updatedColumn` of `ColumnFunctions.ts`; date transforms abstracted. -/
def updatedColumn (toU toD : JsValue → JsValue) : Column :=
  { kind := .updated, required := true, modifiable := false, toUser := toU, toDatabase := toD }

/-- A row schema (`Row` of `Row.ts`): an insertion-ordered object mapping
column names to column definitions. -/
abbrev RowSchema := List (String × Column)

/-- A data record: a JS object as an insertion-ordered key/value list. -/
abbrev Rec := List (String × JsValue)

/-- JS property read `data[key]`: an absent key yields `undefined`. -/
def getJs (data : Rec) (k : String) : JsValue :=
  match data.lookup k with
  | some v => v
  | none => .undefined

/-- JS property write `data[key] = v`: replaces an existing key in place,
otherwise appends the key at the end. -/
def setJs (data : Rec) (k : String) (v : JsValue) : Rec :=
  if (data.map Prod.fst).contains k then
    data.map (fun p => if p.1 = k then (k, v) else p)
  else
    data ++ [(k, v)]

/-- Schema lookup `row[key]`; keys handed to `convertRow` always come from
the schema so the fallback column is never reached there. -/
def lookupCol (row : RowSchema) (k : String) : Column :=
  match row.lookup k with
  | some c => c
  | none => stringColumn false

/-- The transform direction argument `'toUser' | 'toDatabase'` of `convertRow`. -/
inductive Dir where
  | toUser
  | toDatabase
deriving DecidableEq, Repr

/-- `column[fn](value)` for the chosen direction. -/
def applyDir (c : Column) : Dir → JsValue → JsValue
  | .toUser => c.toUser
  | .toDatabase => c.toDatabase

/-- The conversion error taxonomy raised by `convertRow` in `Row.ts`:
`key must have a value` and `key cannot be null`. -/
inductive ConvError where
  | valueMissing (key : String)
  | valueNull (key : String)
deriving DecidableEq, Repr

/-- `convertRow` of `Row.ts`: fold the key list over the data, applying the
per-field policy (absent / explicit null / present value). Output preserves
key order; a raised error aborts the whole conversion. -/
def convertRow (keys : List String) (row : RowSchema) (data : Rec)
    (fn : Dir) (optionals : Bool) : Except ConvError Rec :=
  match keys with
  | [] => .ok []
  | k :: ks =>
    if getJs data k = .undefined then
      if (lookupCol row k).required && !optionals then .error (.valueMissing k)
      else convertRow ks row data fn optionals
    else if getJs data k = .null then
      if (lookupCol row k).required then .error (.valueNull k)
      else (convertRow ks row data fn optionals).map (fun r => (k, .null) :: r)
    else
      (convertRow ks row data fn optionals).map
        (fun r => (k, applyDir (lookupCol row k) fn (getJs data k)) :: r)

/-- The key list used by `convertRows` of `Row.ts`: all schema keys, or —
when `filter` — only keys of modifiable columns. The source builds the
filtered list with `.map(key => modifiable ? key : undefined).filter(Boolean)`,
so a modifiable column named by the empty string is also dropped
(`Boolean("")` is `false`). -/
def actionKeys (filterModifiable : Bool) (row : RowSchema) : List String :=
  if filterModifiable then
    (row.map Prod.fst).filter (fun k => (lookupCol row k).modifiable && k != "")
  else
    row.map Prod.fst

/-- `convertRows` of `Row.ts` applied to one record. -/
def convertRecord (fn : Dir) (filterModifiable optionals : Bool)
    (row : RowSchema) (data : Rec) : Except ConvError Rec :=
  convertRow (actionKeys filterModifiable row) row data fn optionals

/-- `convertRows` of `Row.ts` applied to an array: element order preserved,
the first raised error aborts the whole call. -/
def convertRecords (fn : Dir) (filterModifiable optionals : Bool)
    (row : RowSchema) (data : List Rec) : Except ConvError (List Rec) :=
  data.mapM (convertRecord fn filterModifiable optionals row)

/-- `Row.select.toUser`: all columns, strict policy (`rowConverter(false, false)`). -/
def selectToUser (row : RowSchema) (data : Rec) : Except ConvError Rec :=
  convertRecord .toUser false false row data

/-- `Row.select.toDatabase` (the storage direction of the Select action). -/
def selectToDatabase (row : RowSchema) (data : Rec) : Except ConvError Rec :=
  convertRecord .toDatabase false false row data

/-- `Row.where.toDatabase`: all columns, optional policy (`rowConverter(false, true)`). -/
def whereToDatabase (row : RowSchema) (data : Rec) : Except ConvError Rec :=
  convertRecord .toDatabase false true row data

/-- `Row.where.toUser`. -/
def whereToUser (row : RowSchema) (data : Rec) : Except ConvError Rec :=
  convertRecord .toUser false true row data

/-- `Row.insert.toDatabase`: modifiable columns, strict policy (`rowConverter(true, false)`). -/
def insertToDatabase (row : RowSchema) (data : Rec) : Except ConvError Rec :=
  convertRecord .toDatabase true false row data

/-- `Row.insert.toUser`. -/
def insertToUser (row : RowSchema) (data : Rec) : Except ConvError Rec :=
  convertRecord .toUser true false row data

/-- `Row.update.toDatabase`: modifiable columns, optional policy (`rowConverter(true, true)`). -/
def updateToDatabase (row : RowSchema) (data : Rec) : Except ConvError Rec :=
  convertRecord .toDatabase true true row data

/-- `Row.update.toUser`. -/
def updateToUser (row : RowSchema) (data : Rec) : Except ConvError Rec :=
  convertRecord .toUser true true row data

/-- `Row.select.toUser` applied to an array of storage records. -/
def selectToUserArr (row : RowSchema) (data : List Rec) : Except ConvError (List Rec) :=
  convertRecords .toUser false false row data

/-!
Session model (`Database.ts`, `createDatabaseProxy`). A session state is
the list of scopes created so far; a scope records its parent (if any),
whether it is the base scope, its own mutable closed flag, and whether the
underlying knex transaction reports `isCompleted()`. A child scope always
has a parent index smaller than its own, so the getter chains terminate;
the recursions below carry `i + 1` as fuel to mirror that.
-/

/-- One scope of `createDatabaseProxy`: the captured `parent` status, the
`isBase` discriminator, the mutable `closed` flag of the closure, and the
underlying connection's completion flag (`knex.isCompleted()`). -/
structure Scope where
  parent : Option Nat
  isBase : Bool
  ownClosed : Bool
  completed : Bool
deriving DecidableEq, Repr

/-- A session state: every scope created so far, indexed by creation order. -/
abbrev SessionState := List Scope

/-- The `level` getter chain: `(parent?.level ?? -1) + 1`, recomputed on
each read. Fuel is the scope index plus one; parents created earlier have
smaller indices, so the fuel suffices for states built by the operations. -/
def levelOfFuel : Nat → SessionState → Nat → Nat
  | 0, _, _ => 0
  | fuel + 1, s, i =>
    match s.get? i with
    | none => 0
    | some sc =>
      match sc.parent with
      | none => 0
      | some p => levelOfFuel fuel s p + 1

/-- `scope.level`. -/
def levelOf (s : SessionState) (i : Nat) : Nat := levelOfFuel (i + 1) s i

/-- The `closed` getter chain: `parent?.closed || closed`, recomputed on
each read (never cached). -/
def closedOfFuel : Nat → SessionState → Nat → Bool
  | 0, _, _ => false
  | fuel + 1, s, i =>
    match s.get? i with
    | none => false
    | some sc =>
      (match sc.parent with
       | none => false
       | some p => closedOfFuel fuel s p) || sc.ownClosed

/-- `scope.closed`. -/
def closedOf (s : SessionState) (i : Nat) : Bool := closedOfFuel (i + 1) s i

/-- The transaction-state errors of `Database.ts`: `Not currently in a
transaction` and `Transaction has already been completed`. Both are the
spec's TransactionStateError. -/
inductive TxError where
  | notInTransaction
  | alreadyCompleted
deriving DecidableEq, Repr

/-- An action taken on the underlying connection. -/
inductive ConnEvent where
  | commit (i : Nat)
  | rollback (i : Nat)
deriving DecidableEq, Repr

/-- `transaction()`: rejects when the scope reads as closed; otherwise a
fresh Active child scope at the next index, with this scope as parent. -/
def transactionOp (s : SessionState) (i : Nat) : Except TxError (SessionState × Nat) :=
  if closedOf s i then .error .alreadyCompleted
  else .ok (s ++ [{ parent := some i, isBase := false, ownClosed := false, completed := false }],
            s.length)

/-- `commit()`: rejects on the base scope, then on a closed or completed
scope; otherwise commits the underlying connection (which marks it
completed) and sets the scope's own closed flag. -/
def commitOp (s : SessionState) (i : Nat) : Except TxError (SessionState × ConnEvent) :=
  match s.get? i with
  | none => .error .notInTransaction
  | some sc =>
    if sc.isBase then .error .notInTransaction
    else if closedOf s i || sc.completed then .error .alreadyCompleted
    else .ok (s.set i { sc with ownClosed := true, completed := true }, .commit i)

/-- `rollback()`: same guards as `commit()`, rolling the connection back. -/
def rollbackOp (s : SessionState) (i : Nat) : Except TxError (SessionState × ConnEvent) :=
  match s.get? i with
  | none => .error .notInTransaction
  | some sc =>
    if sc.isBase then .error .notInTransaction
    else if closedOf s i || sc.completed then .error .alreadyCompleted
    else .ok (s.set i { sc with ownClosed := true, completed := true }, .rollback i)

/-- The session state holding just the freshly created base scope. -/
def baseSession : SessionState :=
  [{ parent := none, isBase := true, ownClosed := false, completed := false }]

/-!
DynamicTable model (`DynamicTable.ts`). The store (knex) is abstracted by
result functions; each operation is modelled as the trace of store-visible
events it produces plus its outcome.
-/

/-- Observable events of `insertMany`. -/
inductive BatchEvent where
  | beginTransaction
  | onBatch (rows : List Rec) (index : Nat)
  | insertBatch (rows : List Rec)
  | commitTransaction
  | insertDirect (rows : List Rec)
deriving DecidableEq, Repr

/-- The batch loop of `insertMany`: `for (let i = 0; i < rows.length; i += batch)`,
slicing `rows.slice(i, i + batch)`, calling `onBatch?.(slice, i)` and then
inserting the slice inside the transaction. `ok` says whether a given
insert succeeds and `ret` what rows the store returns for it; a failing
insert throws, aborting the loop. Fuel covers nontermination of the
source loop when `batch = 0`; any fuel above `rows.length` is enough once
`batch ≥ 1`. Returns (events, loop succeeded, accumulated returned rows). -/
def insertBatchLoop (ok : List Rec → Bool) (ret : List Rec → List Rec) (batch : Nat) :
    Nat → Nat → List Rec → List BatchEvent × Bool × List Rec
  | 0, _, _ => ([], false, [])
  | fuel + 1, i, rows =>
    if rows.isEmpty then ([], true, [])
    else
      let slice := rows.take batch
      if ok slice then
        let rest := insertBatchLoop ok ret batch fuel (i + batch) (rows.drop batch)
        (.onBatch slice i :: .insertBatch slice :: rest.1, rest.2.1, ret slice ++ rest.2.2)
      else ([.onBatch slice i, .insertBatch slice], false, [])

/-- `insertMany(rows, batch, onBatch)`: when `batch ≤ rows.length`, open an
internal transaction, run the batch loop, and commit only after the loop
finishes; otherwise notify `onBatch` once and perform one direct insert.
The outcome is `none` when a store insert rejected (the exception
propagates), otherwise the result of converting the store-returned rows
back to user shape with the Select converter. -/
def insertManyRun (schema : RowSchema) (ok : List Rec → Bool) (ret : List Rec → List Rec)
    (rows : List Rec) (batch : Nat) : List BatchEvent × Option (Except ConvError (List Rec)) :=
  if batch ≤ rows.length then
    let loop := insertBatchLoop ok ret batch (rows.length + 1) 0 rows
    if loop.2.1 then
      (.beginTransaction :: loop.1 ++ [.commitTransaction], some (selectToUserArr schema loop.2.2))
    else
      (.beginTransaction :: loop.1, none)
  else
    if ok rows then
      ([.onBatch rows 0, .insertDirect rows], some (selectToUserArr schema (ret rows)))
    else
      ([.onBatch rows 0, .insertDirect rows], none)

/-- The errors `insert` can raise. -/
inductive InsertError where
  | conv (e : ConvError)
  | insertFailed
deriving DecidableEq, Repr

/-- Outcome of a single-row `insert`, together with the storage-shape
record actually handed to the store (`none` when conversion threw first). -/
structure InsertOneRun where
  sent : Option Rec
  result : Except InsertError Rec
deriving Repr

/-- `insert(row)`: convert with the Insert-action `toDatabase` converter,
hand the converted record to the store, fail with InsertFailed when the
store returns no row, and convert the first returned row back to user
shape with the Select converter. -/
def insertOneRun (schema : RowSchema) (store : Rec → List Rec) (row : Rec) : InsertOneRun :=
  match insertToDatabase schema row with
  | .error e => { sent := none, result := .error (.conv e) }
  | .ok dbRow =>
    match store dbRow with
    | [] => { sent := some dbRow, result := .error .insertFailed }
    | result :: _ =>
      { sent := some dbRow,
        result := (selectToUser schema result).mapError InsertError.conv }

/-- The `#updates` list computed once in the `DynamicTable` constructor:
`this.columns.filter(column => row[column].kind === 'updated')`. -/
def updatesList (schema : RowSchema) : List String :=
  (schema.map Prod.fst).filter (fun k => (lookupCol schema k).kind = ColumnKind.updated)

/-- The mutation performed by `#processUpdates` on its argument:
`row[update] = DatabaseDate.now('string')` for every updated-kind column. -/
def stampRow (schema : RowSchema) (now : String) (row : Rec) : Rec :=
  (updatesList schema).foldl (fun r k => setJs r k (.str now)) row

/-- Outcome of `update(id, row)` / `updateBy(cond, row)`: the caller's row
object as it stands after the call (the source mutates it in place), plus
the returned value. -/
structure UpdateRunOut (α : Type) where
  callerRow : Rec
  result : Except ConvError α
deriving Repr

/-- `update(id, row)`: stamp updated-kind columns into the caller's row,
convert it with the Update-action `toDatabase` converter, run the store
update, and return the first updated row in user shape — or `none`
(`undefined`) when no row matched. -/
def updateRun (schema : RowSchema) (now : String) (store : Int → Rec → List Rec)
    (id : Int) (row : Rec) : UpdateRunOut (Option Rec) :=
  let row' := stampRow schema now row
  match updateToDatabase schema row' with
  | .error e => { callerRow := row', result := .error e }
  | .ok dbRow =>
    match store id dbRow with
    | [] => { callerRow := row', result := .ok none }
    | result :: _ =>
      { callerRow := row', result := (selectToUser schema result).map some }

/-- `updateBy(conditions, row)`: the where-condition is converted first
(before `#processUpdates` runs); then the row is stamped and converted and
all updated rows are returned in user shape. -/
def updateByRun (schema : RowSchema) (now : String) (store : Rec → Rec → List Rec)
    (conditions : Rec) (row : Rec) : UpdateRunOut (List Rec) :=
  match whereToDatabase schema conditions with
  | .error e => { callerRow := row, result := .error e }
  | .ok dbCond =>
    let row' := stampRow schema now row
    match updateToDatabase schema row' with
    | .error e => { callerRow := row', result := .error e }
    | .ok dbRow =>
      { callerRow := row', result := selectToUserArr schema (store dbCond dbRow) }

/-!
Helper lemmas about the conversion pipeline.
-/

theorem lookup_mem {α : Type} {l : List (String × α)} {k : String} {v : α}
    (h : l.lookup k = some v) : (k, v) ∈ l := by
  induction l with
  | nil => simp [List.lookup] at h
  | cons p ps ih =>
    rw [List.lookup] at h
    by_cases hk : k = p.1
    · subst hk
      simp only [beq_self_eq_true] at h
      cases h
      cases p
      exact List.mem_cons_self _ _
    · have hbeq : (k == p.1) = false := by simp [hk]
      rw [hbeq] at h
      exact List.mem_cons_of_mem _ (ih h)

theorem getJs_mem {data : Rec} {k : String} {v : JsValue}
    (h : getJs data k = v) (hv : v ≠ .undefined) : (k, v) ∈ data := by
  unfold getJs at h
  cases hl : data.lookup k with
  | none => rw [hl] at h; exact absurd h.symm hv
  | some w => rw [hl] at h; subst h; exact lookup_mem hl

/-- The output `convertRow` produces when no error is raised: keys with an
`undefined` value are dropped, `null` passes through, other values are
transformed. -/
def convertOut (row : RowSchema) (data : Rec) (fn : Dir) : List String → Rec
  | [] => []
  | k :: ks =>
    if getJs data k = .undefined then convertOut row data fn ks
    else if getJs data k = .null then (k, .null) :: convertOut row data fn ks
    else (k, applyDir (lookupCol row k) fn (getJs data k)) :: convertOut row data fn ks

/-- When every key passes the per-field policy, `convertRow` succeeds and
returns `convertOut`. -/
theorem convertRow_ok_of_pass {keys : List String} {row : RowSchema} {data : Rec}
    {fn : Dir} {optionals : Bool}
    (h : ∀ k ∈ keys, (getJs data k = .null → (lookupCol row k).required = false) ∧
      (optionals = false → getJs data k = .undefined → (lookupCol row k).required = false)) :
    convertRow keys row data fn optionals = .ok (convertOut row data fn keys) := by
  induction keys with
  | nil => rfl
  | cons k ks ih =>
    have hk := h k (List.mem_cons_self k ks)
    have hrest : ∀ k' ∈ ks, (getJs data k' = .null → (lookupCol row k').required = false) ∧
        (optionals = false → getJs data k' = .undefined → (lookupCol row k').required = false) :=
      fun k' hk' => h k' (List.mem_cons_of_mem _ hk')
    rw [convertRow, convertOut]
    by_cases hu : getJs data k = .undefined
    · have hreq : ((lookupCol row k).required && !optionals) = false := by
        cases ho : optionals with
        | false => simp [hk.2 ho hu]
        | true => simp
      simp [hu, hreq, ih hrest]
    · by_cases hn : getJs data k = .null
      · simp [hu, hn, hk.1 hn, ih hrest, Except.map]
      · simp [hu, hn, ih hrest, Except.map]

/-- Every entry of a successful `convertRow` output is keyed by one of the
requested keys. -/
theorem convertRow_out_keys {keys : List String} {row : RowSchema} {data : Rec}
    {fn : Dir} {optionals : Bool} {out : Rec}
    (h : convertRow keys row data fn optionals = .ok out) :
    ∀ p ∈ out, p.1 ∈ keys := by
  induction keys generalizing out with
  | nil =>
    rw [convertRow] at h
    cases h
    simp
  | cons k ks ih =>
    rw [convertRow] at h
    by_cases hu : getJs data k = .undefined
    · rw [if_pos hu] at h
      split at h
      · cases h
      · intro p hp
        exact List.mem_cons_of_mem _ (ih h p hp)
    · rw [if_neg hu] at h
      by_cases hn : getJs data k = .null
      · rw [if_pos hn] at h
        split at h
        · cases h
        · cases hrec : convertRow ks row data fn optionals with
          | error e => rw [hrec] at h; cases h
          | ok rest =>
            rw [hrec] at h
            simp only [Except.map] at h
            cases h
            intro p hp
            rcases List.mem_cons.mp hp with hp | hp
            · subst hp; simp
            · exact List.mem_cons_of_mem _ (ih hrec p hp)
      · rw [if_neg hn] at h
        cases hrec : convertRow ks row data fn optionals with
        | error e => rw [hrec] at h; simp [Except.map] at h
        | ok rest =>
          rw [hrec] at h
          simp only [Except.map] at h
          cases h
          intro p hp
          rcases List.mem_cons.mp hp with hp | hp
          · subst hp; simp
          · exact List.mem_cons_of_mem _ (ih hrec p hp)

theorem getJs_cons {k k' : String} {v : JsValue} {rest : Rec} :
    getJs ((k', v) :: rest) k = if k = k' then v else getJs rest k := by
  by_cases h : k = k'
  · subst h
    simp [getJs, List.lookup]
  · have hb : (k == k') = false := beq_eq_false_iff_ne.mpr h
    simp [getJs, List.lookup, hb, h]

/-- A key with an `undefined` value is never a key of the conversion output. -/
theorem convertOut_not_mem {row : RowSchema} {data : Rec} {fn : Dir}
    {keys : List String} {k : String} (hu : getJs data k = .undefined) :
    ∀ p ∈ convertOut row data fn keys, p.1 ≠ k := by
  induction keys with
  | nil => simp [convertOut]
  | cons k' ks ih =>
    rw [convertOut]
    by_cases hu' : getJs data k' = .undefined
    · rw [if_pos hu']
      exact ih
    · rw [if_neg hu']
      have hne : k' ≠ k := fun he => hu' (he ▸ hu)
      by_cases hn' : getJs data k' = .null
      · rw [if_pos hn']
        intro p hp
        rcases List.mem_cons.mp hp with hp | hp
        · subst hp; exact hne
        · exact ih p hp
      · rw [if_neg hn']
        intro p hp
        rcases List.mem_cons.mp hp with hp | hp
        · subst hp; exact hne
        · exact ih p hp

/-- A key given explicit `null` shows up in the conversion output as `null`. -/
theorem convertOut_mem_null {row : RowSchema} {data : Rec} {fn : Dir}
    {keys : List String} {k : String} (hk : k ∈ keys) (hn : getJs data k = .null) :
    (k, JsValue.null) ∈ convertOut row data fn keys := by
  induction keys with
  | nil => cases hk
  | cons k' ks ih =>
    rw [convertOut]
    by_cases hkk : k' = k
    · subst hkk
      rw [if_neg (by simp [hn]), if_pos hn]
      exact List.mem_cons_self _ _
    · have hk' : k ∈ ks := by
        rcases List.mem_cons.mp hk with h | h
        · exact absurd h.symm hkk
        · exact h
      by_cases hu' : getJs data k' = .undefined
      · rw [if_pos hu']
        exact ih hk'
      · rw [if_neg hu']
        by_cases hn' : getJs data k' = .null
        · rw [if_pos hn']
          exact List.mem_cons_of_mem _ (ih hk')
        · rw [if_neg hn']
          exact List.mem_cons_of_mem _ (ih hk')

/-- When every requested key has a defined value, the output has exactly the
requested keys, in order. -/
theorem convertOut_map_fst {row : RowSchema} {data : Rec} {fn : Dir}
    {keys : List String} (hdef : ∀ k ∈ keys, getJs data k ≠ .undefined) :
    (convertOut row data fn keys).map Prod.fst = keys := by
  induction keys with
  | nil => rfl
  | cons k ks ih =>
    rw [convertOut]
    have hu := hdef k (List.mem_cons_self k ks)
    have hrest := fun k' hk' => hdef k' (List.mem_cons_of_mem _ hk')
    rw [if_neg hu]
    by_cases hn : getJs data k = .null
    · rw [if_pos hn]
      simp [ih hrest]
    · rw [if_neg hn]
      simp [ih hrest]

/-- Reading the conversion output at a requested, defined key yields the
policy-transformed value. -/
theorem getJs_convertOut {row : RowSchema} {data : Rec} {fn : Dir}
    {keys : List String} {k : String} (hk : k ∈ keys) (hdef : getJs data k ≠ .undefined) :
    getJs (convertOut row data fn keys) k =
      if getJs data k = .null then .null
      else applyDir (lookupCol row k) fn (getJs data k) := by
  induction keys with
  | nil => cases hk
  | cons k' ks ih =>
    rw [convertOut]
    by_cases hu' : getJs data k' = .undefined
    · rw [if_pos hu']
      rcases List.mem_cons.mp hk with h | h
      · subst h; exact absurd hu' hdef
      · exact ih h
    · rw [if_neg hu']
      by_cases hkk : k = k'
      · subst hkk
        by_cases hn : getJs data k = .null
        · rw [if_pos hn, getJs_cons, if_pos rfl, if_pos hn]
        · rw [if_neg hn, getJs_cons, if_pos rfl, if_neg hn]
      · have hk' : k ∈ ks := by
          rcases List.mem_cons.mp hk with h | h
          · exact absurd h hkk
          · exact h
        by_cases hn' : getJs data k' = .null
        · rw [if_pos hn', getJs_cons, if_neg hkk]
          exact ih hk'
        · rw [if_neg hn', getJs_cons, if_neg hkk]
          exact ih hk'

/-- When a required key is `undefined` under strict policy and every other
key passes policy, `convertRow` fails with exactly that key's ValueMissing. -/
theorem convertRow_error_missing {keys : List String} {row : RowSchema} {data : Rec}
    {fn : Dir} {optionals : Bool} {k : String}
    (hk : k ∈ keys) (hu : getJs data k = .undefined)
    (hr : (lookupCol row k).required = true) (ho : optionals = false)
    (hgood : ∀ k' ∈ keys, k' ≠ k →
      (getJs data k' = .null → (lookupCol row k').required = false) ∧
      (optionals = false → getJs data k' = .undefined → (lookupCol row k').required = false)) :
    convertRow keys row data fn optionals = .error (.valueMissing k) := by
  induction keys with
  | nil => cases hk
  | cons k' ks ih =>
    rw [convertRow]
    by_cases hkk : k' = k
    · subst hkk
      rw [if_pos hu, if_pos (by simp [hr, ho])]
    · have hg := hgood k' (List.mem_cons_self _ _) hkk
      have hk' : k ∈ ks := by
        rcases List.mem_cons.mp hk with h | h
        · exact absurd h.symm hkk
        · exact h
      have hrest : ∀ k'' ∈ ks, k'' ≠ k →
          (getJs data k'' = .null → (lookupCol row k'').required = false) ∧
          (optionals = false → getJs data k'' = .undefined → (lookupCol row k'').required = false) :=
        fun k'' hm => hgood k'' (List.mem_cons_of_mem _ hm)
      by_cases hu' : getJs data k' = .undefined
      · rw [if_pos hu', if_neg (by simp [hg.2 ho hu'])]
        exact ih hk' hrest
      · by_cases hn' : getJs data k' = .null
        · rw [if_neg hu', if_pos hn', if_neg (by simp [hg.1 hn']), ih hk' hrest]
          rfl
        · rw [if_neg hu', if_neg hn', ih hk' hrest]
          rfl

/-- When a required key is explicit `null` and every other key passes
policy, `convertRow` fails with exactly that key's ValueNull (under either
policy mode). -/
theorem convertRow_error_null {keys : List String} {row : RowSchema} {data : Rec}
    {fn : Dir} {optionals : Bool} {k : String}
    (hk : k ∈ keys) (hn : getJs data k = .null)
    (hr : (lookupCol row k).required = true)
    (hgood : ∀ k' ∈ keys, k' ≠ k →
      (getJs data k' = .null → (lookupCol row k').required = false) ∧
      (optionals = false → getJs data k' = .undefined → (lookupCol row k').required = false)) :
    convertRow keys row data fn optionals = .error (.valueNull k) := by
  induction keys with
  | nil => cases hk
  | cons k' ks ih =>
    rw [convertRow]
    by_cases hkk : k' = k
    · subst hkk
      rw [if_neg (by simp [hn]), if_pos hn, if_pos hr]
    · have hg := hgood k' (List.mem_cons_self _ _) hkk
      have hk' : k ∈ ks := by
        rcases List.mem_cons.mp hk with h | h
        · exact absurd h.symm hkk
        · exact h
      have hrest : ∀ k'' ∈ ks, k'' ≠ k →
          (getJs data k'' = .null → (lookupCol row k'').required = false) ∧
          (optionals = false → getJs data k'' = .undefined → (lookupCol row k'').required = false) :=
        fun k'' hm => hgood k'' (List.mem_cons_of_mem _ hm)
      by_cases hu' : getJs data k' = .undefined
      · rw [if_pos hu']
        have hcond : ((lookupCol row k').required && !optionals) = false := by
          cases ho : optionals with
          | false => simp [hg.2 ho hu']
          | true => simp
        rw [if_neg (by simp [hcond])]
        exact ih hk' hrest
      · by_cases hn' : getJs data k' = .null
        · rw [if_neg hu', if_pos hn', if_neg (by simp [hg.1 hn']), ih hk' hrest]
          rfl
        · rw [if_neg hu', if_neg hn', ih hk' hrest]
          rfl

/-- The column at a key listed in the schema is genuinely one of the
schema's entries. -/
theorem lookupCol_mem {row : RowSchema} {k : String} (hk : k ∈ row.map Prod.fst) :
    (k, lookupCol row k) ∈ row := by
  induction row with
  | nil => cases hk
  | cons p ps ih =>
    rw [lookupCol, List.lookup]
    by_cases h : k = p.1
    · subst h
      simp only [beq_self_eq_true]
      cases p
      exact List.mem_cons_self _ _
    · have hb : (k == p.1) = false := beq_eq_false_iff_ne.mpr h
      rw [hb]
      have hk' : k ∈ ps.map Prod.fst := by
        rcases List.mem_cons.mp hk with h' | h'
        · exact absurd h' h
        · exact h'
      exact List.mem_cons_of_mem _ (ih hk')

/-- The successful conversion output, written as a map over the keys. -/
theorem convertOut_eq_map {row : RowSchema} {data : Rec} {fn : Dir}
    {keys : List String} (hdef : ∀ k ∈ keys, getJs data k ≠ .undefined) :
    convertOut row data fn keys =
      keys.map (fun k => (k, if getJs data k = .null then .null
        else applyDir (lookupCol row k) fn (getJs data k))) := by
  induction keys with
  | nil => rfl
  | cons k ks ih =>
    rw [convertOut]
    have hu := hdef k (List.mem_cons_self k ks)
    have hrest := fun k' hk' => hdef k' (List.mem_cons_of_mem _ hk')
    rw [if_neg hu]
    by_cases hn : getJs data k = .null
    · rw [if_pos hn]
      simp [ih hrest, hn]
    · rw [if_neg hn]
      simp [ih hrest, hn]

/-- A record with distinct keys is exactly the map of its own reads over
its key list. -/
theorem rec_eq_map_getJs {data : Rec}
    (hnd : (data.map Prod.fst).Nodup) :
    (data.map Prod.fst).map (fun k => (k, getJs data k)) = data := by
  induction data with
  | nil => rfl
  | cons p ps ih =>
    simp only [List.map_cons]
    have hnd' : (ps.map Prod.fst).Nodup := (List.nodup_cons.mp hnd).2
    have hhead : p.1 ∉ ps.map Prod.fst := (List.nodup_cons.mp hnd).1
    have h1 : getJs (p :: ps) p.1 = p.2 := by
      cases p
      rw [getJs_cons, if_pos rfl]
    have h2 : (ps.map Prod.fst).map (fun k => (k, getJs (p :: ps) k)) =
        (ps.map Prod.fst).map (fun k => (k, getJs ps k)) := by
      apply List.map_eq_map_iff.mpr
      intro k hk
      have hne : k ≠ p.1 := fun he => hhead (he ▸ hk)
      cases p
      rw [getJs_cons, if_neg hne]
    rw [h1, h2, ih hnd']

/-- The lossless column factories of the spec: boolean, integer, string,
uuid — exactly as `ColumnFunctions.ts` builds them. -/
def losslessFactory (c : Column) : Prop :=
  (∃ r, c = booleanColumn r) ∨ (∃ r, c = integerColumn r) ∨
  (∃ r, c = stringColumn r) ∨ (∃ r, c = uuidColumn r)

/-- Pointwise round trip for lossless columns, provided a boolean column's
stored value really is a JS boolean. -/
theorem lossless_roundtrip {c : Column} (hc : losslessFactory c) {v : JsValue}
    (hu : v ≠ .undefined) (hn : v ≠ .null)
    (hb : c.kind = .boolean → ∃ b, v = .bool b) :
    c.toDatabase (c.toUser v) = v ∧ c.toUser v ≠ .undefined ∧ c.toUser v ≠ .null := by
  rcases hc with ⟨r, rfl⟩ | ⟨r, rfl⟩ | ⟨r, rfl⟩ | ⟨r, rfl⟩
  · obtain ⟨b, rfl⟩ := hb rfl
    simp [booleanColumn, jsBoolean, jsTruthy]
  · exact ⟨rfl, hu, hn⟩
  · exact ⟨rfl, hu, hn⟩
  · exact ⟨rfl, hu, hn⟩

theorem actionKeys_false (row : RowSchema) : actionKeys false row = row.map Prod.fst := rfl

theorem actionKeys_true (row : RowSchema) :
    actionKeys true row =
      (row.map Prod.fst).filter (fun k => (lookupCol row k).modifiable && k != "") := rfl

/-!
Claim theorems.
-/

/-- C1, counterexample: for a boolean column whose stored value is the
integer `1`, `Row.select.toUser` yields the JS boolean `true`
(`Boolean(1)`), and `Row.select.toDatabase` maps it to `true` again
(`Boolean(true)`), not back to the integer `1` — so the storage round trip
does not return the same 0/1 value. -/
theorem C1_boolean_roundtrip_counterexample :
    selectToUser [("b", booleanColumn true)] [("b", JsValue.num 1)] =
      .ok [("b", JsValue.bool true)] ∧
    selectToDatabase [("b", booleanColumn true)] [("b", JsValue.bool true)] =
      .ok [("b", JsValue.bool true)] ∧
    [("b", JsValue.bool true)] ≠ [("b", JsValue.num 1)] :=
  ⟨by decide, by decide, by decide⟩

/-- C1, amended: for schemas built from the lossless column factories
(boolean/integer/string/uuid), the Select-action storage round trip
`toStorage ∘ toUser` is the identity on records whose boolean columns hold
actual JS booleans; a boolean column stored as the integer 0/1 instead
comes back as the corresponding JS boolean (see the counterexample), not
as the same integer. -/
theorem C1_lossless_roundtrip (row : RowSchema) (data : Rec)
    (hnd : (row.map Prod.fst).Nodup)
    (hkeys : data.map Prod.fst = row.map Prod.fst)
    (hloss : ∀ p ∈ row, losslessFactory p.2)
    (hdef : ∀ k ∈ row.map Prod.fst, getJs data k ≠ .undefined)
    (hreq : ∀ k ∈ row.map Prod.fst, getJs data k = .null → (lookupCol row k).required = false)
    (hbool : ∀ k ∈ row.map Prod.fst, (lookupCol row k).kind = .boolean →
      getJs data k = .null ∨ ∃ b, getJs data k = .bool b) :
    ∃ us, selectToUser row data = .ok us ∧ selectToDatabase row us = .ok data := by
  have hloss' : ∀ k ∈ row.map Prod.fst, losslessFactory (lookupCol row k) :=
    fun k hk => hloss _ (lookupCol_mem hk)
  have hbool' : ∀ k ∈ row.map Prod.fst, getJs data k ≠ .null →
      ((lookupCol row k).kind = .boolean → ∃ b, getJs data k = .bool b) := by
    intro k hk hn hkind
    rcases hbool k hk hkind with h | h
    · exact absurd h hn
    · exact h
  have hpass1 : ∀ k ∈ row.map Prod.fst,
      (getJs data k = .null → (lookupCol row k).required = false) ∧
      (false = false → getJs data k = .undefined → (lookupCol row k).required = false) :=
    fun k hk => ⟨hreq k hk, fun _ h => absurd h (hdef k hk)⟩
  have h1 : selectToUser row data = .ok (convertOut row data .toUser (row.map Prod.fst)) := by
    unfold selectToUser convertRecord
    rw [actionKeys_false]
    exact convertRow_ok_of_pass hpass1
  have hus : ∀ k ∈ row.map Prod.fst,
      getJs (convertOut row data .toUser (row.map Prod.fst)) k =
        if getJs data k = .null then .null
        else (lookupCol row k).toUser (getJs data k) :=
    fun k hk => getJs_convertOut hk (hdef k hk)
  have hdef2 : ∀ k ∈ row.map Prod.fst,
      getJs (convertOut row data .toUser (row.map Prod.fst)) k ≠ .undefined := by
    intro k hk
    rw [hus k hk]
    by_cases hn : getJs data k = .null
    · rw [if_pos hn]
      exact fun h => by cases h
    · rw [if_neg hn]
      exact (lossless_roundtrip (hloss' k hk) (hdef k hk) hn (hbool' k hk hn)).2.1
  have hpass2 : ∀ k ∈ row.map Prod.fst,
      (getJs (convertOut row data .toUser (row.map Prod.fst)) k = .null →
        (lookupCol row k).required = false) ∧
      (false = false → getJs (convertOut row data .toUser (row.map Prod.fst)) k = .undefined →
        (lookupCol row k).required = false) := by
    intro k hk
    refine ⟨?_, fun _ h => absurd h (hdef2 k hk)⟩
    rw [hus k hk]
    by_cases hn : getJs data k = .null
    · rw [if_pos hn]
      exact fun _ => hreq k hk hn
    · rw [if_neg hn]
      intro h
      exact absurd h
        (lossless_roundtrip (hloss' k hk) (hdef k hk) hn (hbool' k hk hn)).2.2
  have h2 : selectToDatabase row (convertOut row data .toUser (row.map Prod.fst)) =
      .ok (convertOut row (convertOut row data .toUser (row.map Prod.fst)) .toDatabase
        (row.map Prod.fst)) := by
    unfold selectToDatabase convertRecord
    rw [actionKeys_false]
    exact convertRow_ok_of_pass hpass2
  have heq : convertOut row (convertOut row data .toUser (row.map Prod.fst)) .toDatabase
      (row.map Prod.fst) = data := by
    rw [convertOut_eq_map hdef2]
    have hpt : (row.map Prod.fst).map (fun k =>
        (k, if getJs (convertOut row data .toUser (row.map Prod.fst)) k = .null then .null
          else applyDir (lookupCol row k) .toDatabase
            (getJs (convertOut row data .toUser (row.map Prod.fst)) k))) =
        (row.map Prod.fst).map (fun k => (k, getJs data k)) := by
      apply List.map_eq_map_iff.mpr
      intro k hk
      rw [hus k hk]
      by_cases hn : getJs data k = .null
      · rw [if_pos hn, if_pos rfl, hn]
      · have hr := lossless_roundtrip (hloss' k hk) (hdef k hk) hn (hbool' k hk hn)
        rw [if_neg hn, if_neg hr.2.2]
        show (k, (lookupCol row k).toDatabase ((lookupCol row k).toUser (getJs data k))) =
          (k, getJs data k)
        rw [hr.1]
    rw [hpt, ← hkeys]
    exact rec_eq_map_getJs (by rw [hkeys]; exact hnd)
  exact ⟨convertOut row data .toUser (row.map Prod.fst), h1, by rw [h2, heq]⟩

/-- C1, witness: a concrete two-column lossless schema where the round
trip returns the record unchanged. -/
theorem C1_lossless_roundtrip_witness :
    ∃ us, selectToUser [("b", booleanColumn true), ("s", stringColumn false)]
        [("b", JsValue.bool true), ("s", JsValue.null)] = .ok us ∧
      selectToDatabase [("b", booleanColumn true), ("s", stringColumn false)] us =
        .ok [("b", JsValue.bool true), ("s", JsValue.null)] :=
  C1_lossless_roundtrip _ _ (by decide) (by decide)
    (by
      intro p hp
      rcases List.mem_cons.mp hp with h | h
      · subst h
        exact Or.inl ⟨true, rfl⟩
      · rcases List.mem_singleton.mp h with rfl
        exact Or.inr (Or.inr (Or.inl ⟨false, rfl⟩)))
    (by decide) (by decide) (by decide)

/-- C4: a required column whose value is absent (undefined) raises
ValueMissing under the Select and Insert converters (for Insert provided
the column is one the converter processes: modifiable, and not named by
the empty string), while under the Where and Update converters the
conversion succeeds and the missing column is omitted from the output. -/
theorem C4_missing_value_policy (row : RowSchema) (data : Rec) (k : String)
    (hk : k ∈ row.map Prod.fst)
    (hr : (lookupCol row k).required = true)
    (hu : getJs data k = .undefined)
    (hothers : ∀ k' ∈ row.map Prod.fst, k' ≠ k →
      (getJs data k' = .null → (lookupCol row k').required = false) ∧
      (getJs data k' = .undefined → (lookupCol row k').required = false)) :
    selectToUser row data = .error (.valueMissing k) ∧
    selectToDatabase row data = .error (.valueMissing k) ∧
    ((lookupCol row k).modifiable = true → k ≠ "" →
      insertToDatabase row data = .error (.valueMissing k)) ∧
    (∃ out, whereToDatabase row data = .ok out ∧ ∀ p ∈ out, p.1 ≠ k) ∧
    (∃ out, updateToDatabase row data = .ok out ∧ ∀ p ∈ out, p.1 ≠ k) := by
  have hgood : ∀ k' ∈ row.map Prod.fst, k' ≠ k →
      (getJs data k' = .null → (lookupCol row k').required = false) ∧
      (false = false → getJs data k' = .undefined → (lookupCol row k').required = false) :=
    fun k' hm hne => ⟨(hothers k' hm hne).1, fun _ => (hothers k' hm hne).2⟩
  have hpassOpt : ∀ k' ∈ row.map Prod.fst,
      (getJs data k' = .null → (lookupCol row k').required = false) ∧
      (true = false → getJs data k' = .undefined → (lookupCol row k').required = false) := by
    intro k' hm
    refine ⟨?_, fun h => by cases h⟩
    by_cases hne : k' = k
    · subst hne
      intro h
      rw [hu] at h
      cases h
    · exact (hothers k' hm hne).1
  refine ⟨?_, ?_, ?_, ?_, ?_⟩
  · unfold selectToUser convertRecord
    rw [actionKeys_false]
    exact convertRow_error_missing hk hu hr rfl hgood
  · unfold selectToDatabase convertRecord
    rw [actionKeys_false]
    exact convertRow_error_missing hk hu hr rfl hgood
  · intro hmod hne
    unfold insertToDatabase convertRecord
    rw [actionKeys_true]
    have hkf : k ∈ (row.map Prod.fst).filter
        (fun k => (lookupCol row k).modifiable && k != "") :=
      List.mem_filter.mpr ⟨hk, by simp [hmod, hne]⟩
    exact convertRow_error_missing hkf hu hr rfl
      (fun k' hm => hgood k' (List.mem_filter.mp hm).1)
  · refine ⟨convertOut row data .toDatabase (row.map Prod.fst), ?_, convertOut_not_mem hu⟩
    unfold whereToDatabase convertRecord
    rw [actionKeys_false]
    exact convertRow_ok_of_pass hpassOpt
  · refine ⟨convertOut row data .toDatabase (actionKeys true row), ?_, convertOut_not_mem hu⟩
    unfold updateToDatabase convertRecord
    exact convertRow_ok_of_pass
      (fun k' hm => hpassOpt k' (by rw [actionKeys_true] at hm; exact (List.mem_filter.mp hm).1))

/-- C4, witness: schema `{name: required string, age: optional integer}`
with `name` absent. -/
theorem C4_missing_value_policy_witness :
    selectToUser [("name", stringColumn true), ("age", integerColumn false)]
      [("age", JsValue.num 5)] = .error (.valueMissing "name") ∧
    (∃ out, whereToDatabase [("name", stringColumn true), ("age", integerColumn false)]
      [("age", JsValue.num 5)] = .ok out ∧ ∀ p ∈ out, p.1 ≠ "name") := by
  have h := C4_missing_value_policy
    [("name", stringColumn true), ("age", integerColumn false)]
    [("age", JsValue.num 5)] "name" (by decide) (by decide) (by decide) (by decide)
  exact ⟨h.1, h.2.2.2.1⟩

/-- C5: under every converter, a required column given explicit `null`
raises ValueNull (for Insert/Update provided the column is one those
converters process: modifiable and not named by the empty string); a
non-required column given `null` appears in the output as `null`, with no
transform function applied (the result is `null` whatever the column's
transforms are). -/
theorem C5_null_policy (row : RowSchema) (data : Rec) (k : String)
    (hk : k ∈ row.map Prod.fst)
    (hn : getJs data k = .null)
    (hothers : ∀ k' ∈ row.map Prod.fst, k' ≠ k →
      (getJs data k' = .null → (lookupCol row k').required = false) ∧
      (getJs data k' = .undefined → (lookupCol row k').required = false)) :
    ((lookupCol row k).required = true →
      selectToUser row data = .error (.valueNull k) ∧
      selectToDatabase row data = .error (.valueNull k) ∧
      whereToDatabase row data = .error (.valueNull k) ∧
      ((lookupCol row k).modifiable = true → k ≠ "" →
        insertToDatabase row data = .error (.valueNull k) ∧
        updateToDatabase row data = .error (.valueNull k))) ∧
    ((lookupCol row k).required = false →
      (∃ out, selectToUser row data = .ok out ∧ (k, JsValue.null) ∈ out) ∧
      (∃ out, selectToDatabase row data = .ok out ∧ (k, JsValue.null) ∈ out) ∧
      (∃ out, whereToDatabase row data = .ok out ∧ (k, JsValue.null) ∈ out) ∧
      ((lookupCol row k).modifiable = true → k ≠ "" →
        (∃ out, insertToDatabase row data = .ok out ∧ (k, JsValue.null) ∈ out) ∧
        (∃ out, updateToDatabase row data = .ok out ∧ (k, JsValue.null) ∈ out))) := by
  constructor
  · intro hr
    have hgood : ∀ (optionals : Bool), ∀ k' ∈ row.map Prod.fst, k' ≠ k →
        (getJs data k' = .null → (lookupCol row k').required = false) ∧
        (optionals = false → getJs data k' = .undefined → (lookupCol row k').required = false) :=
      fun _ k' hm hne => ⟨(hothers k' hm hne).1, fun _ => (hothers k' hm hne).2⟩
    refine ⟨?_, ?_, ?_, ?_⟩
    · unfold selectToUser convertRecord
      rw [actionKeys_false]
      exact convertRow_error_null hk hn hr (hgood false)
    · unfold selectToDatabase convertRecord
      rw [actionKeys_false]
      exact convertRow_error_null hk hn hr (hgood false)
    · unfold whereToDatabase convertRecord
      rw [actionKeys_false]
      exact convertRow_error_null hk hn hr (hgood true)
    · intro hmod hne
      have hkf : k ∈ actionKeys true row := by
        rw [actionKeys_true]
        exact List.mem_filter.mpr ⟨hk, by simp [hmod, hne]⟩
      have hsub : ∀ {optionals : Bool}, ∀ k' ∈ actionKeys true row, k' ≠ k →
          (getJs data k' = .null → (lookupCol row k').required = false) ∧
          (optionals = false → getJs data k' = .undefined → (lookupCol row k').required = false) := by
        intro optionals k' hm
        exact hgood optionals k' (by rw [actionKeys_true] at hm; exact (List.mem_filter.mp hm).1)
      exact ⟨convertRow_error_null hkf hn hr hsub, convertRow_error_null hkf hn hr hsub⟩
  · intro hr
    have hpass : ∀ (optionals : Bool), ∀ k' ∈ row.map Prod.fst,
        (getJs data k' = .null → (lookupCol row k').required = false) ∧
        (optionals = false → getJs data k' = .undefined → (lookupCol row k').required = false) := by
      intro optionals k' hm
      by_cases hne : k' = k
      · subst hne
        refine ⟨fun _ => hr, fun _ h => ?_⟩
        rw [hn] at h
        cases h
      · exact ⟨(hothers k' hm hne).1, fun _ => (hothers k' hm hne).2⟩
    have hall : ∀ (optionals : Bool) (filterKeys : List String),
        (∀ k' ∈ filterKeys, k' ∈ row.map Prod.fst) → k ∈ filterKeys →
        convertRow filterKeys row data .toUser optionals =
            .ok (convertOut row data .toUser filterKeys) ∧
        convertRow filterKeys row data .toDatabase optionals =
            .ok (convertOut row data .toDatabase filterKeys) ∧
        (k, JsValue.null) ∈ convertOut row data .toUser filterKeys ∧
        (k, JsValue.null) ∈ convertOut row data .toDatabase filterKeys := by
      intro optionals filterKeys hsub hkf
      exact ⟨convertRow_ok_of_pass (fun k' hm => hpass optionals k' (hsub k' hm)),
        convertRow_ok_of_pass (fun k' hm => hpass optionals k' (hsub k' hm)),
        convertOut_mem_null hkf hn, convertOut_mem_null hkf hn⟩
    have hallSchema := hall false (row.map Prod.fst) (fun k' hm => hm) hk
    have hallSchemaOpt := hall true (row.map Prod.fst) (fun k' hm => hm) hk
    refine ⟨?_, ?_, ?_, ?_⟩
    · refine ⟨convertOut row data .toUser (row.map Prod.fst), ?_, hallSchema.2.2.1⟩
      unfold selectToUser convertRecord
      rw [actionKeys_false]
      exact hallSchema.1
    · refine ⟨convertOut row data .toDatabase (row.map Prod.fst), ?_, hallSchema.2.2.2⟩
      unfold selectToDatabase convertRecord
      rw [actionKeys_false]
      exact hallSchema.2.1
    · refine ⟨convertOut row data .toDatabase (row.map Prod.fst), ?_, hallSchemaOpt.2.2.2⟩
      unfold whereToDatabase convertRecord
      rw [actionKeys_false]
      exact hallSchemaOpt.2.1
    · intro hmod hne
      have hkf : k ∈ actionKeys true row := by
        rw [actionKeys_true]
        exact List.mem_filter.mpr ⟨hk, by simp [hmod, hne]⟩
      have hsub : ∀ k' ∈ actionKeys true row, k' ∈ row.map Prod.fst := by
        intro k' hm
        rw [actionKeys_true] at hm
        exact (List.mem_filter.mp hm).1
      have hf := hall false (actionKeys true row) hsub hkf
      have hfOpt := hall true (actionKeys true row) hsub hkf
      exact ⟨⟨convertOut row data .toDatabase (actionKeys true row),
          hf.2.1, hf.2.2.2⟩,
        ⟨convertOut row data .toDatabase (actionKeys true row),
          hfOpt.2.1, hfOpt.2.2.2⟩⟩

/-- C5, witness: `{name: required string, age: optional integer}` — a null
`name` fails with ValueNull; a null `age` passes through as null. -/
theorem C5_null_policy_witness :
    selectToUser [("name", stringColumn true), ("age", integerColumn false)]
      [("name", JsValue.null), ("age", JsValue.num 1)] = .error (.valueNull "name") ∧
    (∃ out, selectToUser [("name", stringColumn true), ("age", integerColumn false)]
      [("name", JsValue.str "x"), ("age", JsValue.null)] = .ok out ∧
      ("age", JsValue.null) ∈ out) := by
  have h1 := C5_null_policy
    [("name", stringColumn true), ("age", integerColumn false)]
    [("name", JsValue.null), ("age", JsValue.num 1)] "name"
    (by decide) (by decide) (by decide)
  have h2 := C5_null_policy
    [("name", stringColumn true), ("age", integerColumn false)]
    [("name", JsValue.str "x"), ("age", JsValue.null)] "age"
    (by decide) (by decide) (by decide)
  exact ⟨(h1.1 (by decide)).1, (h2.2 (by decide)).1⟩

/-- C6: the Insert and Update conversion outputs never contain a key for a
column of a non-modifiable kind (id, external, created, updated — assuming
the TypeScript-enforced agreement between `modifiable` and the kind),
while the Select and Where converters consider all schema columns: on a
record where every column has a defined, policy-passing value, their
output lists exactly the schema's keys in schema order. -/
theorem C6_column_selection (row : RowSchema) (data : Rec)
    (hwt : ∀ p ∈ row, WellTypedCol p.2) :
    (∀ out, insertToDatabase row data = .ok out → ∀ p ∈ out,
      (lookupCol row p.1).kind ≠ .id ∧ (lookupCol row p.1).kind ≠ .external ∧
      (lookupCol row p.1).kind ≠ .created ∧ (lookupCol row p.1).kind ≠ .updated) ∧
    (∀ out, insertToUser row data = .ok out → ∀ p ∈ out,
      (lookupCol row p.1).kind ≠ .id ∧ (lookupCol row p.1).kind ≠ .external ∧
      (lookupCol row p.1).kind ≠ .created ∧ (lookupCol row p.1).kind ≠ .updated) ∧
    (∀ out, updateToDatabase row data = .ok out → ∀ p ∈ out,
      (lookupCol row p.1).kind ≠ .id ∧ (lookupCol row p.1).kind ≠ .external ∧
      (lookupCol row p.1).kind ≠ .created ∧ (lookupCol row p.1).kind ≠ .updated) ∧
    (∀ out, updateToUser row data = .ok out → ∀ p ∈ out,
      (lookupCol row p.1).kind ≠ .id ∧ (lookupCol row p.1).kind ≠ .external ∧
      (lookupCol row p.1).kind ≠ .created ∧ (lookupCol row p.1).kind ≠ .updated) ∧
    ((∀ k ∈ row.map Prod.fst, getJs data k ≠ .undefined ∧
        (getJs data k = .null → (lookupCol row k).required = false)) →
      (∃ out, selectToUser row data = .ok out ∧ out.map Prod.fst = row.map Prod.fst) ∧
      (∃ out, selectToDatabase row data = .ok out ∧ out.map Prod.fst = row.map Prod.fst) ∧
      (∃ out, whereToDatabase row data = .ok out ∧ out.map Prod.fst = row.map Prod.fst) ∧
      (∃ out, whereToUser row data = .ok out ∧ out.map Prod.fst = row.map Prod.fst)) := by
  have hmodkind : ∀ k ∈ actionKeys true row,
      (lookupCol row k).kind ≠ .id ∧ (lookupCol row k).kind ≠ .external ∧
      (lookupCol row k).kind ≠ .created ∧ (lookupCol row k).kind ≠ .updated := by
    intro k hm
    rw [actionKeys_true] at hm
    obtain ⟨hkmem, hcond⟩ := List.mem_filter.mp hm
    have hmod : (lookupCol row k).modifiable = true := by
      rcases Bool.and_eq_true_iff.mp hcond with ⟨h1, _⟩
      exact h1
    have hwtk : (lookupCol row k).modifiable = ColumnModifiable (lookupCol row k).kind :=
      hwt _ (lookupCol_mem hkmem)
    have hcm : ColumnModifiable (lookupCol row k).kind = true := by
      rw [← hwtk]
      exact hmod
    cases hkind : (lookupCol row k).kind <;> simp_all [ColumnModifiable]
  have hfiltered : ∀ (fn : Dir) (optionals : Bool) (out : Rec),
      convertRow (actionKeys true row) row data fn optionals = .ok out → ∀ p ∈ out,
      (lookupCol row p.1).kind ≠ .id ∧ (lookupCol row p.1).kind ≠ .external ∧
      (lookupCol row p.1).kind ≠ .created ∧ (lookupCol row p.1).kind ≠ .updated :=
    fun _ _ out hok p hp => hmodkind p.1 (convertRow_out_keys hok p hp)
  refine ⟨fun out hok => hfiltered _ _ out hok, fun out hok => hfiltered _ _ out hok,
    fun out hok => hfiltered _ _ out hok, fun out hok => hfiltered _ _ out hok, ?_⟩
  intro hdata
  have hpass : ∀ (optionals : Bool), ∀ k ∈ row.map Prod.fst,
      (getJs data k = .null → (lookupCol row k).required = false) ∧
      (optionals = false → getJs data k = .undefined → (lookupCol row k).required = false) :=
    fun _ k hm => ⟨(hdata k hm).2, fun _ h => absurd h (hdata k hm).1⟩
  have hfst : ∀ fn, (convertOut row data fn (row.map Prod.fst)).map Prod.fst =
      row.map Prod.fst :=
    fun fn => convertOut_map_fst (fun k hm => (hdata k hm).1)
  refine ⟨⟨convertOut row data .toUser (row.map Prod.fst), ?_, hfst _⟩,
    ⟨convertOut row data .toDatabase (row.map Prod.fst), ?_, hfst _⟩,
    ⟨convertOut row data .toDatabase (row.map Prod.fst), ?_, hfst _⟩,
    ⟨convertOut row data .toUser (row.map Prod.fst), ?_, hfst _⟩⟩
  · unfold selectToUser convertRecord
    rw [actionKeys_false]
    exact convertRow_ok_of_pass (hpass false)
  · unfold selectToDatabase convertRecord
    rw [actionKeys_false]
    exact convertRow_ok_of_pass (hpass false)
  · unfold whereToDatabase convertRecord
    rw [actionKeys_false]
    exact convertRow_ok_of_pass (hpass true)
  · unfold whereToUser convertRecord
    rw [actionKeys_false]
    exact convertRow_ok_of_pass (hpass true)

/-- C6, witness: with schema `{id, name}`, the Insert conversion of a full
record succeeds with output `{name}`, whose one key is not id-kind. -/
theorem C6_column_selection_witness :
    (lookupCol [("id", idColumn), ("name", stringColumn true)] "name").kind ≠ .id ∧
    (lookupCol [("id", idColumn), ("name", stringColumn true)] "name").kind ≠ .external ∧
    (lookupCol [("id", idColumn), ("name", stringColumn true)] "name").kind ≠ .created ∧
    (lookupCol [("id", idColumn), ("name", stringColumn true)] "name").kind ≠ .updated :=
  (C6_column_selection [("id", idColumn), ("name", stringColumn true)]
      [("id", JsValue.num 7), ("name", JsValue.str "x")] (by decide)).1
    [("name", JsValue.str "x")] (by decide) ("name", JsValue.str "x") (by decide)

/-!
Session lemmas. A scope's parent is always created before it, so parent
indices are strictly below the scope's own index; `ParentsBelow` captures
that and makes the getter chains well defined.
-/

/-- Every scope's parent index is below its own index. -/
def ParentsBelow (s : SessionState) : Prop :=
  ∀ i sc, s.get? i = some sc → ∀ p, sc.parent = some p → p < i

theorem get?_set_self {α : Type} : ∀ (l : List α) (i : Nat) (a : α), i < l.length →
    (l.set i a).get? i = some a := by
  intro l
  induction l with
  | nil =>
    intro i a h
    cases h
  | cons x xs ih =>
    intro i a h
    cases i with
    | zero => rfl
    | succ n => exact ih n a (Nat.lt_of_succ_lt_succ h)

theorem get?_set_ne {α : Type} : ∀ (l : List α) {i j : Nat} (a : α), i ≠ j →
    (l.set i a).get? j = l.get? j := by
  intro l
  induction l with
  | nil => intros; rfl
  | cons x xs ih =>
    intro i j a hne
    cases i with
    | zero =>
      cases j with
      | zero => exact absurd rfl hne
      | succ m => rfl
    | succ n =>
      cases j with
      | zero => rfl
      | succ m => exact ih a (fun h => hne (by rw [h]))

/-- The closed chain is independent of the fuel, once sufficient. -/
theorem closedOfFuel_eq (s : SessionState) (hwf : ParentsBelow s) :
    ∀ (i fuel fuel' : Nat), i < fuel → i < fuel' →
      closedOfFuel fuel s i = closedOfFuel fuel' s i := by
  intro i
  induction i using Nat.strong_induction_on with
  | _ i ih =>
    intro fuel fuel' h h'
    obtain ⟨f, rfl⟩ : ∃ f, fuel = f + 1 := ⟨fuel - 1, by omega⟩
    obtain ⟨f', rfl⟩ : ∃ f', fuel' = f' + 1 := ⟨fuel' - 1, by omega⟩
    rw [closedOfFuel, closedOfFuel]
    cases hsc : s.get? i with
    | none => rfl
    | some sc =>
      dsimp only
      cases hp : sc.parent with
      | none => rfl
      | some p =>
        dsimp only
        have hpi : p < i := hwf i sc hsc p hp
        rw [ih p hpi f f' (by omega) (by omega)]

/-- The level chain is independent of the fuel, once sufficient. -/
theorem levelOfFuel_eq (s : SessionState) (hwf : ParentsBelow s) :
    ∀ (i fuel fuel' : Nat), i < fuel → i < fuel' →
      levelOfFuel fuel s i = levelOfFuel fuel' s i := by
  intro i
  induction i using Nat.strong_induction_on with
  | _ i ih =>
    intro fuel fuel' h h'
    obtain ⟨f, rfl⟩ : ∃ f, fuel = f + 1 := ⟨fuel - 1, by omega⟩
    obtain ⟨f', rfl⟩ : ∃ f', fuel' = f' + 1 := ⟨fuel' - 1, by omega⟩
    rw [levelOfFuel, levelOfFuel]
    cases hsc : s.get? i with
    | none => rfl
    | some sc =>
      dsimp only
      cases hp : sc.parent with
      | none => rfl
      | some p =>
        dsimp only
        have hpi : p < i := hwf i sc hsc p hp
        rw [ih p hpi f f' (by omega) (by omega)]

theorem closedOf_parent_none {s : SessionState} {i : Nat} {sc : Scope}
    (hsc : s.get? i = some sc) (hp : sc.parent = none) :
    closedOf s i = sc.ownClosed := by
  rw [closedOf, closedOfFuel, hsc]
  dsimp only
  rw [hp]
  exact Bool.false_or _

theorem closedOf_parent_some {s : SessionState} {i p : Nat} {sc : Scope}
    (hwf : ParentsBelow s) (hsc : s.get? i = some sc) (hp : sc.parent = some p) :
    closedOf s i = (closedOf s p || sc.ownClosed) := by
  have hpi : p < i := hwf i sc hsc p hp
  rw [closedOf, closedOfFuel, hsc]
  dsimp only
  rw [hp]
  dsimp only
  rw [closedOfFuel_eq s hwf p i (p + 1) hpi (by omega), closedOf]

theorem levelOf_parent_none {s : SessionState} {i : Nat} {sc : Scope}
    (hsc : s.get? i = some sc) (hp : sc.parent = none) :
    levelOf s i = 0 := by
  rw [levelOf, levelOfFuel, hsc]
  dsimp only
  rw [hp]

theorem levelOf_parent_some {s : SessionState} {i p : Nat} {sc : Scope}
    (hwf : ParentsBelow s) (hsc : s.get? i = some sc) (hp : sc.parent = some p) :
    levelOf s i = levelOf s p + 1 := by
  have hpi : p < i := hwf i sc hsc p hp
  rw [levelOf, levelOfFuel, hsc]
  dsimp only
  rw [hp]
  dsimp only
  rw [levelOfFuel_eq s hwf p i (p + 1) hpi (by omega), levelOf]

/-- Appending a fresh scope does not change existing closed chains. -/
theorem closedOfFuel_append (s : SessionState) (x : Scope) (hwf : ParentsBelow s) :
    ∀ (fuel i : Nat), i < s.length →
      closedOfFuel fuel (s ++ [x]) i = closedOfFuel fuel s i := by
  intro fuel
  induction fuel with
  | zero => intros; rfl
  | succ f ih =>
    intro i hi
    rw [closedOfFuel, closedOfFuel, List.get?_append hi]
    cases hsc : s.get? i with
    | none => rfl
    | some sc =>
      dsimp only
      cases hp : sc.parent with
      | none => rfl
      | some p =>
        dsimp only
        have hpi : p < i := hwf i sc hsc p hp
        rw [ih p (Nat.lt_trans hpi hi)]

theorem closedOf_append {s : SessionState} {x : Scope} {i : Nat}
    (hwf : ParentsBelow s) (hi : i < s.length) :
    closedOf (s ++ [x]) i = closedOf s i :=
  closedOfFuel_append s x hwf (i + 1) i hi

/-- Appending a fresh scope does not change existing levels. -/
theorem levelOfFuel_append (s : SessionState) (x : Scope) (hwf : ParentsBelow s) :
    ∀ (fuel i : Nat), i < s.length →
      levelOfFuel fuel (s ++ [x]) i = levelOfFuel fuel s i := by
  intro fuel
  induction fuel with
  | zero => intros; rfl
  | succ f ih =>
    intro i hi
    rw [levelOfFuel, levelOfFuel, List.get?_append hi]
    cases hsc : s.get? i with
    | none => rfl
    | some sc =>
      dsimp only
      cases hp : sc.parent with
      | none => rfl
      | some p =>
        dsimp only
        have hpi : p < i := hwf i sc hsc p hp
        rw [ih p (Nat.lt_trans hpi hi)]

theorem levelOf_append {s : SessionState} {x : Scope} {i : Nat}
    (hwf : ParentsBelow s) (hi : i < s.length) :
    levelOf (s ++ [x]) i = levelOf s i :=
  levelOfFuel_append s x hwf (i + 1) i hi

theorem parentsBelow_append {s : SessionState} {x : Scope}
    (hwf : ParentsBelow s) (hx : ∀ p, x.parent = some p → p < s.length) :
    ParentsBelow (s ++ [x]) := by
  intro i sc hsc p hp
  by_cases hi : i < s.length
  · rw [List.get?_append hi] at hsc
    exact hwf i sc hsc p hp
  · have hlen : i < s.length + 1 := by
      by_contra hge
      rw [List.get?_eq_none.mpr (by simp; omega)] at hsc
      cases hsc
    have hieq : i = s.length := by omega
    subst hieq
    rw [List.get?_concat_length] at hsc
    cases hsc
    exact Nat.lt_of_lt_of_le (hx p hp) (Nat.le_refl _)

theorem parentsBelow_set {s : SessionState} {j : Nat} {sc sc' : Scope}
    (hwf : ParentsBelow s) (hsc : s.get? j = some sc) (hpar : sc'.parent = sc.parent) :
    ParentsBelow (s.set j sc') := by
  intro i x hx p hp
  by_cases hij : j = i
  · subst hij
    have hlen : j < s.length := by
      by_contra hge
      rw [List.get?_eq_none.mpr (by omega)] at hsc
      cases hsc
    rw [get?_set_self s j sc' hlen] at hx
    cases hx
    exact hwf j sc hsc p (by rw [← hpar]; exact hp)
  · rw [get?_set_ne s sc' hij] at hx
    exact hwf i x hx p hp

/-- A scope whose own closed flag is set reads as closed. -/
theorem closedOf_ownClosed {s : SessionState} {i : Nat} {sc : Scope}
    (hsc : s.get? i = some sc) (ho : sc.ownClosed = true) :
    closedOf s i = true := by
  rw [closedOf, closedOfFuel, hsc]
  dsimp only
  rw [ho, Bool.or_true]

/-- C7: `commit()`/`rollback()` reject with TransactionStateError on the
base scope and on a scope that reads as closed or whose connection is
completed; otherwise they act on the connection and set the scope's own
closed flag, so the same scope's second commit or rollback always rejects. -/
theorem C7_commit_rollback_policy (s : SessionState) (i : Nat) (sc : Scope)
    (hsc : s.get? i = some sc) :
    (sc.isBase = true →
      commitOp s i = .error .notInTransaction ∧
      rollbackOp s i = .error .notInTransaction) ∧
    (sc.isBase = false → (closedOf s i || sc.completed) = true →
      commitOp s i = .error .alreadyCompleted ∧
      rollbackOp s i = .error .alreadyCompleted) ∧
    (sc.isBase = false → closedOf s i = false → sc.completed = false →
      commitOp s i =
        .ok (s.set i { sc with ownClosed := true, completed := true }, .commit i) ∧
      rollbackOp s i =
        .ok (s.set i { sc with ownClosed := true, completed := true }, .rollback i) ∧
      closedOf (s.set i { sc with ownClosed := true, completed := true }) i = true ∧
      commitOp (s.set i { sc with ownClosed := true, completed := true }) i =
        .error .alreadyCompleted ∧
      rollbackOp (s.set i { sc with ownClosed := true, completed := true }) i =
        .error .alreadyCompleted) := by
  have hlen : i < s.length := by
    by_contra hge
    rw [List.get?_eq_none.mpr (by omega)] at hsc
    cases hsc
  refine ⟨?_, ?_, ?_⟩
  · intro hbase
    constructor
    · rw [commitOp, hsc]
      dsimp only
      rw [if_pos hbase]
    · rw [rollbackOp, hsc]
      dsimp only
      rw [if_pos hbase]
  · intro hbase hguard
    constructor
    · rw [commitOp, hsc]
      dsimp only
      rw [if_neg (by simp [hbase]), if_pos hguard]
    · rw [rollbackOp, hsc]
      dsimp only
      rw [if_neg (by simp [hbase]), if_pos hguard]
  · intro hbase hcl hcomp
    have hguard : (closedOf s i || sc.completed) = false := by rw [hcl, hcomp]; rfl
    have hset : (s.set i { sc with ownClosed := true, completed := true }).get? i =
        some { sc with ownClosed := true, completed := true } :=
      get?_set_self s i _ hlen
    have hclosed' : closedOf (s.set i { sc with ownClosed := true, completed := true }) i =
        true := closedOf_ownClosed hset rfl
    refine ⟨?_, ?_, hclosed', ?_, ?_⟩
    · rw [commitOp, hsc]
      dsimp only
      rw [if_neg (by simp [hbase]), if_neg (by simp [hguard])]
    · rw [rollbackOp, hsc]
      dsimp only
      rw [if_neg (by simp [hbase]), if_neg (by simp [hguard])]
    · rw [commitOp, hset]
      dsimp only
      rw [if_neg (by simp [hbase]), if_pos (by simp [hclosed'])]
    · rw [rollbackOp, hset]
      dsimp only
      rw [if_neg (by simp [hbase]), if_pos (by simp [hclosed'])]

theorem parentsBelow_demo :
    ParentsBelow [{ parent := none, isBase := true, ownClosed := false, completed := false },
      { parent := some 0, isBase := false, ownClosed := false, completed := false }] := by
  intro i sc hsc p hp
  cases i with
  | zero =>
    cases hsc
    cases hp
  | succ n =>
    cases n with
    | zero =>
      cases hsc
      cases hp
      decide
    | succ m => cases hsc

/-- C7, witness: on a concrete base+child session, commit on the child
succeeds once and a second commit or rollback rejects. -/
theorem C7_commit_rollback_policy_witness :
    commitOp [{ parent := none, isBase := true, ownClosed := false, completed := false },
        { parent := some 0, isBase := false, ownClosed := false, completed := false }] 1 =
      .ok ([{ parent := none, isBase := true, ownClosed := false, completed := false },
        { parent := some 0, isBase := false, ownClosed := true, completed := true }],
        .commit 1) ∧
    commitOp [{ parent := none, isBase := true, ownClosed := false, completed := false },
        { parent := some 0, isBase := false, ownClosed := true, completed := true }] 1 =
      .error .alreadyCompleted ∧
    commitOp [{ parent := none, isBase := true, ownClosed := false, completed := false },
        { parent := some 0, isBase := false, ownClosed := false, completed := false }] 0 =
      .error .notInTransaction := by
  have h := C7_commit_rollback_policy
    [{ parent := none, isBase := true, ownClosed := false, completed := false },
      { parent := some 0, isBase := false, ownClosed := false, completed := false }] 1
    { parent := some 0, isBase := false, ownClosed := false, completed := false }
    (by decide)
  have hb := C7_commit_rollback_policy
    [{ parent := none, isBase := true, ownClosed := false, completed := false },
      { parent := some 0, isBase := false, ownClosed := false, completed := false }] 0
    { parent := none, isBase := true, ownClosed := false, completed := false }
    (by decide)
  have hmain := h.2.2 rfl (by decide) rfl
  exact ⟨hmain.1, hmain.2.2.2.1, (hb.1 rfl).1⟩

/-- A freshly created base scope, as `createDatabaseProxy` builds it. -/
def baseScope : Scope :=
  { parent := none, isBase := true, ownClosed := false, completed := false }

/-- A freshly created transaction scope with the given parent. -/
def childScope (i : Nat) : Scope :=
  { parent := some i, isBase := false, ownClosed := false, completed := false }

/-- A transaction scope after its commit/rollback. -/
def closedChildScope (i : Nat) : Scope :=
  { parent := some i, isBase := false, ownClosed := true, completed := true }

/-- C3: from any base scope (level 0), two nested `transaction()` calls
give T1 at level 1 and T2 at level 2; T2 initially reads as open, and
after committing (or rolling back) T1, T2 reads as closed even though T2's
own stored scope is unchanged — `closed` is recomputed through the parent
chain on every read, never cached. -/
theorem C3_nested_levels_and_close_cascade (s0 : SessionState) (b : Nat)
    (hwf : ParentsBelow s0)
    (hb : s0.get? b = some baseScope) :
    ∃ s1 s2 : SessionState,
      transactionOp s0 b = .ok (s1, s0.length) ∧
      transactionOp s1 s0.length = .ok (s2, s0.length + 1) ∧
      levelOf s2 b = 0 ∧
      levelOf s2 s0.length = 1 ∧
      levelOf s2 (s0.length + 1) = 2 ∧
      closedOf s2 (s0.length + 1) = false ∧
      (∀ s3 e, commitOp s2 s0.length = .ok (s3, e) →
        closedOf s3 (s0.length + 1) = true ∧
        s3.get? (s0.length + 1) = s2.get? (s0.length + 1)) ∧
      (∀ s3 e, rollbackOp s2 s0.length = .ok (s3, e) →
        closedOf s3 (s0.length + 1) = true ∧
        s3.get? (s0.length + 1) = s2.get? (s0.length + 1)) ∧
      (∃ s3 e, commitOp s2 s0.length = .ok (s3, e)) ∧
      (∃ s3 e, rollbackOp s2 s0.length = .ok (s3, e)) := by
  have hblen : b < s0.length := by
    by_contra hge
    rw [List.get?_eq_none.mpr (by omega)] at hb
    cases hb
  have hcl0 : closedOf s0 b = false := closedOf_parent_none hb rfl
  have hwf1 : ParentsBelow (s0 ++ [childScope b]) :=
    parentsBelow_append hwf (by intro p hp; cases hp; exact hblen)
  have hlen1 : (s0 ++ [childScope b]).length = s0.length + 1 := by simp
  have hg1 : (s0 ++ [childScope b]).get? s0.length = some (childScope b) :=
    List.get?_concat_length _ _
  have hgb1 : (s0 ++ [childScope b]).get? b = s0.get? b := List.get?_append hblen
  have hcl1 : closedOf (s0 ++ [childScope b]) s0.length = false := by
    rw [closedOf_parent_some hwf1 hg1 rfl, closedOf_append hwf hblen, hcl0]
    rfl
  have hwf2 : ParentsBelow ((s0 ++ [childScope b]) ++ [childScope s0.length]) :=
    parentsBelow_append hwf1 (by intro p hp; cases hp; omega)
  have hg2 : ((s0 ++ [childScope b]) ++ [childScope s0.length]).get? (s0.length + 1) =
      some (childScope s0.length) := by
    rw [← hlen1]
    exact List.get?_concat_length _ _
  have hg1' : ((s0 ++ [childScope b]) ++ [childScope s0.length]).get? s0.length =
      some (childScope b) := by
    rw [List.get?_append (by omega), hg1]
  have hgb2 : ((s0 ++ [childScope b]) ++ [childScope s0.length]).get? b = some baseScope := by
    rw [List.get?_append (by omega), hgb1, hb]
  have hclb2 : closedOf ((s0 ++ [childScope b]) ++ [childScope s0.length]) b = false :=
    closedOf_parent_none hgb2 rfl
  have hcl1' : closedOf ((s0 ++ [childScope b]) ++ [childScope s0.length]) s0.length =
      false := by
    rw [closedOf_parent_some hwf2 hg1' rfl, hclb2]
    rfl
  have hcl2 : closedOf ((s0 ++ [childScope b]) ++ [childScope s0.length])
      (s0.length + 1) = false := by
    rw [closedOf_parent_some hwf2 hg2 rfl, hcl1']
    rfl
  have hlen2 : s0.length < ((s0 ++ [childScope b]) ++ [childScope s0.length]).length := by
    simp
  have hcommit := (C7_commit_rollback_policy _ s0.length _ hg1').2.2 rfl hcl1' rfl
  have hwf3 : ParentsBelow (((s0 ++ [childScope b]) ++ [childScope s0.length]).set
      s0.length (closedChildScope b)) := parentsBelow_set hwf2 hg1' rfl
  have hset2 : (((s0 ++ [childScope b]) ++ [childScope s0.length]).set s0.length
      (closedChildScope b)).get? (s0.length + 1) = some (childScope s0.length) := by
    rw [get?_set_ne _ _ (by omega), hg2]
  have hsetcl : closedOf (((s0 ++ [childScope b]) ++ [childScope s0.length]).set s0.length
      (closedChildScope b)) (s0.length + 1) = true := by
    rw [closedOf_parent_some hwf3 hset2 rfl,
      closedOf_ownClosed (get?_set_self _ _ _ hlen2) rfl]
    rfl
  refine ⟨s0 ++ [childScope b], (s0 ++ [childScope b]) ++ [childScope s0.length],
    ?_, ?_, ?_, ?_, ?_, hcl2, ?_, ?_, ⟨_, _, hcommit.1⟩, ⟨_, _, hcommit.2.1⟩⟩
  · rw [transactionOp, hcl0]
    rfl
  · rw [transactionOp, hcl1, hlen1]
    rfl
  · exact levelOf_parent_none hgb2 rfl
  · rw [levelOf_parent_some hwf2 hg1' rfl, levelOf_parent_none hgb2 rfl]
  · rw [levelOf_parent_some hwf2 hg2 rfl, levelOf_parent_some hwf2 hg1' rfl,
      levelOf_parent_none hgb2 rfl]
  · intro s3 e heq
    rw [hcommit.1] at heq
    cases heq
    refine ⟨hsetcl, ?_⟩
    rw [get?_set_ne _ _ (by omega)]
  · intro s3 e heq
    rw [hcommit.2.1] at heq
    cases heq
    refine ⟨hsetcl, ?_⟩
    rw [get?_set_ne _ _ (by omega)]

theorem parentsBelow_baseSession : ParentsBelow baseSession := by
  intro i sc hsc p hp
  cases i with
  | zero =>
    cases hsc
    cases hp
  | succ n => cases hsc

/-- C3, witness: the concrete base-only session run through the scenario. -/
theorem C3_nested_levels_and_close_cascade_witness :
    ∃ s1 s2 : SessionState,
      transactionOp baseSession 0 = .ok (s1, 1) ∧
      transactionOp s1 1 = .ok (s2, 2) ∧
      levelOf s2 0 = 0 ∧ levelOf s2 1 = 1 ∧ levelOf s2 2 = 2 ∧
      closedOf s2 2 = false ∧
      (∀ s3 e, commitOp s2 1 = .ok (s3, e) →
        closedOf s3 2 = true ∧ s3.get? 2 = s2.get? 2) ∧
      (∀ s3 e, rollbackOp s2 1 = .ok (s3, e) →
        closedOf s3 2 = true ∧ s3.get? 2 = s2.get? 2) ∧
      (∃ s3 e, commitOp s2 1 = .ok (s3, e)) ∧
      (∃ s3 e, rollbackOp s2 1 = .ok (s3, e)) :=
  C3_nested_levels_and_close_cascade baseSession 0 parentsBelow_baseSession (by decide)

/-!
insertMany lemmas: the batch loop walks the row list in take/drop chunks.
-/

/-- The `(slice, index)` pairs the `insertMany` batch loop visits, with the
same fuel discipline as the loop. -/
def batchChunks (batch : Nat) : Nat → Nat → List Rec → List (List Rec × Nat)
  | 0, _, _ => []
  | fuel + 1, i, rows =>
    if rows.isEmpty then []
    else (rows.take batch, i) :: batchChunks batch fuel (i + batch) (rows.drop batch)

/-- With positive batch size and enough fuel, the chunks concatenate back
to the input row list. -/
theorem batchChunks_join {batch : Nat} (hb : 1 ≤ batch) :
    ∀ (fuel i : Nat) (rows : List Rec), rows.length < fuel →
      ((batchChunks batch fuel i rows).map Prod.fst).flatten = rows := by
  intro fuel
  induction fuel with
  | zero =>
    intro i rows h
    cases h
  | succ f ih =>
    intro i rows h
    rw [batchChunks]
    by_cases he : rows.isEmpty
    · rw [if_pos he]
      rw [List.isEmpty_iff_eq_nil.mp he]
      rfl
    · rw [if_neg he]
      have hne : rows ≠ [] := fun hnil => he (by rw [hnil]; rfl)
      have hlen : 1 ≤ rows.length := by
        cases rows with
        | nil => exact absurd rfl hne
        | cons a as => simp
      simp only [List.map_cons, List.flatten_cons]
      rw [ih (i + batch) (rows.drop batch) (by rw [List.length_drop]; omega)]
      exact List.take_append_drop batch rows

/-- Every chunk is a nonempty slice of at most `batch` rows, and its rows
are rows of the input. -/
theorem batchChunks_sizes {batch : Nat} (hb : 1 ≤ batch) :
    ∀ (fuel i : Nat) (rows : List Rec), ∀ c ∈ batchChunks batch fuel i rows,
      c.1 ≠ [] ∧ c.1.length ≤ batch ∧ ∀ r ∈ c.1, r ∈ rows := by
  intro fuel
  induction fuel with
  | zero =>
    intro i rows c hc
    cases hc
  | succ f ih =>
    intro i rows c hc
    rw [batchChunks] at hc
    by_cases he : rows.isEmpty
    · rw [if_pos he] at hc
      cases hc
    · rw [if_neg he] at hc
      rcases List.mem_cons.mp hc with hc | hc
      · subst hc
        refine ⟨?_, by simp, fun r hr => List.mem_of_mem_take hr⟩
        have hne : rows ≠ [] := fun hnil => he (by rw [hnil]; rfl)
        cases rows with
        | nil => exact absurd rfl hne
        | cons a as =>
          cases batch with
          | zero => cases hb
          | succ n => simp
      · obtain ⟨h1, h2, h3⟩ := ih (i + batch) (rows.drop batch) c hc
        exact ⟨h1, h2, fun r hr => List.mem_of_mem_drop (h3 r hr)⟩

/-- When every chunk's insert succeeds, the batch loop emits exactly the
per-chunk `[onBatch, insertBatch]` event pairs in order, reports success,
and accumulates exactly the store-returned rows. -/
theorem insertBatchLoop_allOk {ok : List Rec → Bool} {ret : List Rec → List Rec}
    {batch : Nat} (hb : 1 ≤ batch) :
    ∀ (fuel i : Nat) (rows : List Rec), rows.length < fuel →
      (∀ c ∈ batchChunks batch fuel i rows, ok c.1 = true) →
      insertBatchLoop ok ret batch fuel i rows =
        ((batchChunks batch fuel i rows).bind
          (fun c => [.onBatch c.1 c.2, .insertBatch c.1]), true,
         (batchChunks batch fuel i rows).bind (fun c => ret c.1)) := by
  intro fuel
  induction fuel with
  | zero =>
    intro i rows h
    cases h
  | succ f ih =>
    intro i rows h hok
    rw [insertBatchLoop, batchChunks]
    by_cases he : rows.isEmpty
    · rw [if_pos he, if_pos he]
      rfl
    · rw [if_neg he, if_neg he]
      have hne : rows ≠ [] := fun hnil => he (by rw [hnil]; rfl)
      have hlen : 1 ≤ rows.length := by
        cases rows with
        | nil => exact absurd rfl hne
        | cons a as => simp
      have hokhead : ok (rows.take batch) = true := by
        have := hok (rows.take batch, i)
        rw [batchChunks, if_neg he] at this
        exact this (List.mem_cons_self _ _)
      have hoktail : ∀ c ∈ batchChunks batch f (i + batch) (rows.drop batch),
          ok c.1 = true := by
        intro c hc
        apply hok c
        rw [batchChunks, if_neg he]
        exact List.mem_cons_of_mem _ hc
      dsimp only
      rw [if_pos hokhead,
        ih (i + batch) (rows.drop batch) (by rw [List.length_drop]; omega) hoktail]
      simp [List.cons_bind]

/-- The batch loop reports success only if every chunk's insert succeeded. -/
theorem insertBatchLoop_success {ok : List Rec → Bool} {ret : List Rec → List Rec}
    {batch : Nat} :
    ∀ (fuel i : Nat) (rows : List Rec),
      (insertBatchLoop ok ret batch fuel i rows).2.1 = true →
      ∀ c ∈ batchChunks batch fuel i rows, ok c.1 = true := by
  intro fuel
  induction fuel with
  | zero =>
    intro i rows h c hc
    cases hc
  | succ f ih =>
    intro i rows h c hc
    rw [insertBatchLoop] at h
    rw [batchChunks] at hc
    by_cases he : rows.isEmpty
    · rw [if_pos he] at hc
      cases hc
    · rw [if_neg he] at hc
      rw [if_neg he] at h
      dsimp only at h
      by_cases hok : ok (rows.take batch) = true
      · rw [if_pos hok] at h
        dsimp only at h
        rcases List.mem_cons.mp hc with hc | hc
        · subst hc
          exact hok
        · exact ih (i + batch) (rows.drop batch) h c hc
      · rw [if_neg hok] at h
        cases h

/-- The batch loop itself never emits a commit event. -/
theorem insertBatchLoop_no_commit {ok : List Rec → Bool} {ret : List Rec → List Rec}
    {batch : Nat} :
    ∀ (fuel i : Nat) (rows : List Rec),
      BatchEvent.commitTransaction ∉ (insertBatchLoop ok ret batch fuel i rows).1 := by
  intro fuel
  induction fuel with
  | zero =>
    intro i rows h
    cases h
  | succ f ih =>
    intro i rows h
    rw [insertBatchLoop] at h
    by_cases he : rows.isEmpty
    · rw [if_pos he] at h
      cases h
    · rw [if_neg he] at h
      dsimp only at h
      by_cases hok : ok (rows.take batch) = true
      · rw [if_pos hok] at h
        dsimp only at h
        rcases List.mem_cons.mp h with h | h
        · cases h
        · rcases List.mem_cons.mp h with h | h
          · cases h
          · exact ih (i + batch) (rows.drop batch) h
      · rw [if_neg hok] at h
        rcases List.mem_cons.mp h with h | h
        · cases h
        · rcases List.mem_cons.mp h with h | h
          · cases h
          · cases h

/-- C2: with `rows.length ≥ batch`, `insertMany` opens one internal
transaction, walks the rows in sequential slices of at most `batch` rows
(whose concatenation is exactly `rows`), invokes the observer before each
batch insert, and emits the commit only after every batch — if any batch
fails, no commit happens and the call rejects; with `rows.length < batch`
it performs one direct insert with no internal transaction. -/
theorem C2_insertMany_batching (schema : RowSchema) (ok : List Rec → Bool)
    (ret : List Rec → List Rec) (rows : List Rec) (batch : Nat)
    (hbatch : 1 ≤ batch) :
    (batch ≤ rows.length →
      ((batchChunks batch (rows.length + 1) 0 rows).map Prod.fst).flatten = rows ∧
      (∀ c ∈ batchChunks batch (rows.length + 1) 0 rows,
        c.1 ≠ [] ∧ c.1.length ≤ batch) ∧
      ((∀ c ∈ batchChunks batch (rows.length + 1) 0 rows, ok c.1 = true) →
        (insertManyRun schema ok ret rows batch).1 =
          .beginTransaction ::
            ((batchChunks batch (rows.length + 1) 0 rows).bind
              (fun c => [.onBatch c.1 c.2, .insertBatch c.1]) ++ [.commitTransaction])) ∧
      ((∃ c ∈ batchChunks batch (rows.length + 1) 0 rows, ok c.1 = false) →
        BatchEvent.commitTransaction ∉ (insertManyRun schema ok ret rows batch).1 ∧
        (insertManyRun schema ok ret rows batch).2 = none)) ∧
    (rows.length < batch →
      (insertManyRun schema ok ret rows batch).1 =
        [.onBatch rows 0, .insertDirect rows] ∧
      BatchEvent.beginTransaction ∉ (insertManyRun schema ok ret rows batch).1 ∧
      BatchEvent.commitTransaction ∉ (insertManyRun schema ok ret rows batch).1) := by
  constructor
  · intro hle
    refine ⟨batchChunks_join hbatch _ 0 rows (by omega),
      fun c hc => ⟨(batchChunks_sizes hbatch _ 0 rows c hc).1,
        (batchChunks_sizes hbatch _ 0 rows c hc).2.1⟩, ?_, ?_⟩
    · intro hok
      rw [insertManyRun, if_pos hle]
      dsimp only
      rw [insertBatchLoop_allOk hbatch _ 0 rows (by omega) hok]
      dsimp only
      rw [if_pos rfl]
      simp [List.cons_append]
    · intro hex
      have hfail : (insertBatchLoop ok ret batch (rows.length + 1) 0 rows).2.1 = false := by
        cases hx : (insertBatchLoop ok ret batch (rows.length + 1) 0 rows).2.1
        · rfl
        · obtain ⟨c, hc, hcf⟩ := hex
          rw [insertBatchLoop_success _ 0 rows hx c hc] at hcf
          cases hcf
      rw [insertManyRun, if_pos hle]
      dsimp only
      rw [hfail, if_neg (by simp)]
      refine ⟨?_, rfl⟩
      intro hmem
      rcases List.mem_cons.mp hmem with h | h
      · cases h
      · exact insertBatchLoop_no_commit _ 0 rows h
  · intro hlt
    have hnle : ¬ batch ≤ rows.length := by omega
    rw [insertManyRun, if_neg hnle]
    by_cases hok : ok rows = true
    · rw [if_pos hok]
      exact ⟨rfl, by simp, by simp⟩
    · rw [if_neg hok]
      exact ⟨rfl, by simp, by simp⟩

/-- C2, witness: three one-column rows, batch size 2, all inserts
succeeding: one transaction around two slices, commit last. -/
theorem C2_insertMany_batching_witness :
    (insertManyRun [] (fun _ => true) (fun rs => rs)
        [[("a", JsValue.num 1)], [("a", JsValue.num 2)], [("a", JsValue.num 3)]] 2).1 =
      .beginTransaction ::
        ((batchChunks 2 4 0
            [[("a", JsValue.num 1)], [("a", JsValue.num 2)], [("a", JsValue.num 3)]]).bind
          (fun c => [.onBatch c.1 c.2, .insertBatch c.1]) ++ [.commitTransaction]) :=
  ((C2_insertMany_batching [] (fun _ => true) (fun rs => rs)
      [[("a", JsValue.num 1)], [("a", JsValue.num 2)], [("a", JsValue.num 3)]] 2
      (by decide)).1 (by decide)).2.2.1 (by decide)

/-- The row lists handed to the store by the events of an `insertMany` run. -/
def insertPayloads : List BatchEvent → List (List Rec)
  | [] => []
  | .insertBatch rs :: evs => rs :: insertPayloads evs
  | .insertDirect rs :: evs => rs :: insertPayloads evs
  | .beginTransaction :: evs => insertPayloads evs
  | .onBatch _ _ :: evs => insertPayloads evs
  | .commitTransaction :: evs => insertPayloads evs

theorem insertPayloads_chunkEvents (chunks : List (List Rec × Nat)) :
    insertPayloads (chunks.bind
      (fun c => [.onBatch c.1 c.2, .insertBatch c.1])) = chunks.map Prod.fst := by
  induction chunks with
  | nil => rfl
  | cons c cs ih =>
    show insertPayloads (.onBatch c.1 c.2 :: .insertBatch c.1 :: cs.bind
      (fun c => [.onBatch c.1 c.2, .insertBatch c.1])) = c.1 :: cs.map Prod.fst
    simp only [insertPayloads, ih]

theorem insertPayloads_append_commit (evs : List BatchEvent) :
    insertPayloads (evs ++ [.commitTransaction]) = insertPayloads evs := by
  induction evs with
  | nil => rfl
  | cons e es ih => cases e <;> simp [insertPayloads, ih]

/-- C9: `insertMany` hands the caller's user-shape rows to the store
unchanged — their concatenation over all batch inserts is exactly the
input, with no per-column toDatabase transform — in both the batch and the
direct path; single-row `insert` instead converts its row with the
Insert-action toDatabase converter before the store sees it; in both
methods only the rows the store returns are converted back to user shape
with the Select converter. -/
theorem C9_insert_vs_insertMany_conversion (schema : RowSchema) (ok : List Rec → Bool)
    (ret : List Rec → List Rec) (rows : List Rec) (batch : Nat)
    (store : Rec → List Rec) (row : Rec) (hbatch : 1 ≤ batch) :
    (batch ≤ rows.length →
      (∀ c ∈ batchChunks batch (rows.length + 1) 0 rows, ok c.1 = true) →
      (insertPayloads (insertManyRun schema ok ret rows batch).1).flatten = rows ∧
      (insertManyRun schema ok ret rows batch).2 =
        some (selectToUserArr schema
          ((batchChunks batch (rows.length + 1) 0 rows).bind (fun c => ret c.1)))) ∧
    (rows.length < batch →
      insertPayloads (insertManyRun schema ok ret rows batch).1 = [rows] ∧
      (ok rows = true →
        (insertManyRun schema ok ret rows batch).2 =
          some (selectToUserArr schema (ret rows)))) ∧
    ((insertOneRun schema store row).sent = (insertToDatabase schema row).toOption) ∧
    (∀ dbRow, insertToDatabase schema row = .ok dbRow →
      (store dbRow = [] → (insertOneRun schema store row).result = .error .insertFailed) ∧
      (∀ r rest, store dbRow = r :: rest →
        (insertOneRun schema store row).result =
          (selectToUser schema r).mapError InsertError.conv)) := by
  refine ⟨?_, ?_, ?_, ?_⟩
  · intro hle hok
    rw [insertManyRun, if_pos hle]
    dsimp only
    rw [insertBatchLoop_allOk hbatch _ 0 rows (by omega) hok]
    dsimp only
    rw [if_pos rfl]
    refine ⟨?_, rfl⟩
    show (insertPayloads ((BatchEvent.beginTransaction ::
      (batchChunks batch (rows.length + 1) 0 rows).bind
        (fun c => [.onBatch c.1 c.2, .insertBatch c.1])) ++
          [BatchEvent.commitTransaction])).flatten = rows
    rw [insertPayloads_append_commit]
    show (insertPayloads ((batchChunks batch (rows.length + 1) 0 rows).bind
      (fun c => [.onBatch c.1 c.2, .insertBatch c.1]))).flatten = rows
    rw [insertPayloads_chunkEvents]
    exact batchChunks_join hbatch _ 0 rows (by omega)
  · intro hlt
    have hnle : ¬ batch ≤ rows.length := by omega
    rw [insertManyRun, if_neg hnle]
    by_cases hok : ok rows = true
    · rw [if_pos hok]
      exact ⟨rfl, fun _ => rfl⟩
    · rw [if_neg hok]
      exact ⟨rfl, fun h => absurd h hok⟩
  · rw [insertOneRun]
    cases hconv : insertToDatabase schema row with
    | error e => rfl
    | ok dbRow =>
      dsimp only
      cases hst : store dbRow with
      | nil => rfl
      | cons r rest => rfl
  · intro dbRow hconv
    constructor
    · intro hst
      rw [insertOneRun, hconv]
      dsimp only
      rw [hst]
    · intro r rest hst
      rw [insertOneRun, hconv]
      dsimp only
      rw [hst]

/-- C9, witness: with identity store return, the batch path's payloads
concatenate to the input rows, and single insert sends the converted row. -/
theorem C9_insert_vs_insertMany_conversion_witness :
    (insertPayloads (insertManyRun [] (fun _ => true) (fun rs => rs)
        [[("a", JsValue.num 1)], [("a", JsValue.num 2)], [("a", JsValue.num 3)]] 2).1).flatten =
      [[("a", JsValue.num 1)], [("a", JsValue.num 2)], [("a", JsValue.num 3)]] ∧
    (insertOneRun [("b", booleanColumn true)] (fun r => [r])
        [("b", JsValue.num 5)]).sent =
      (insertToDatabase [("b", booleanColumn true)] [("b", JsValue.num 5)]).toOption := by
  have h := C9_insert_vs_insertMany_conversion [] (fun _ => true) (fun rs => rs)
    [[("a", JsValue.num 1)], [("a", JsValue.num 2)], [("a", JsValue.num 3)]] 2
    (fun r => [r]) [("b", JsValue.num 5)] (by decide)
  have h2 := C9_insert_vs_insertMany_conversion [("b", booleanColumn true)]
    (fun _ => true) (fun rs => rs)
    [[("a", JsValue.num 1)], [("a", JsValue.num 2)], [("a", JsValue.num 3)]] 2
    (fun r => [r]) [("b", JsValue.num 5)] (by decide)
  exact ⟨(h.1 (by decide) (by decide)).1, h2.2.2.1⟩

/-!
Property-write lemmas for the update-stamping model.
-/

theorem lookup_cons (p : String × JsValue) (ps : List (String × JsValue)) (k : String) :
    ((p :: ps).lookup k) = if k = p.1 then some p.2 else ps.lookup k := by
  by_cases h : k = p.1
  · rw [List.lookup, beq_iff_eq.mpr h, if_pos h]
  · rw [List.lookup, beq_eq_false_iff_ne.mpr h, if_neg h]

theorem lookup_map_replace {r : Rec} {k : String} (v : JsValue)
    (hc : k ∈ r.map Prod.fst) :
    (r.map (fun p => if p.1 = k then (k, v) else p)).lookup k = some v := by
  induction r with
  | nil => cases hc
  | cons p ps ih =>
    simp only [List.map_cons]
    by_cases hk : p.1 = k
    · rw [if_pos hk, lookup_cons, if_pos rfl]
    · have hc' : k ∈ ps.map Prod.fst := by
        rcases List.mem_cons.mp hc with h | h
        · exact absurd h.symm hk
        · exact h
      rw [if_neg hk, lookup_cons, if_neg (fun h => hk h.symm), ih hc']

theorem lookup_map_replace_ne {r : Rec} {k k' : String} (v : JsValue) (hne : k ≠ k') :
    (r.map (fun p => if p.1 = k' then (k', v) else p)).lookup k = r.lookup k := by
  induction r with
  | nil => rfl
  | cons p ps ih =>
    simp only [List.map_cons]
    by_cases hk : p.1 = k'
    · rw [if_pos hk, lookup_cons, lookup_cons,
        if_neg (fun h : k = (k', v).1 => hne h),
        if_neg (fun h : k = p.1 => hne (h.trans hk)), ih]
    · rw [if_neg hk, lookup_cons, lookup_cons]
      by_cases hkp : k = p.1
      · rw [if_pos hkp, if_pos hkp]
      · rw [if_neg hkp, if_neg hkp, ih]

theorem lookup_append_single {r : Rec} {k k' : String} (v : JsValue) :
    (r ++ [(k', v)]).lookup k = match r.lookup k with
      | some w => some w
      | none => if k = k' then some v else none := by
  induction r with
  | nil =>
    by_cases h : k = k'
    · simp [lookup_cons, h]
    · simp only [List.nil_append, List.lookup, beq_eq_false_iff_ne.mpr h]
      rw [if_neg h]
  | cons p ps ih =>
    rw [List.cons_append, lookup_cons, lookup_cons]
    by_cases hkp : k = p.1
    · rw [if_pos hkp, if_pos hkp]
    · rw [if_neg hkp, if_neg hkp, ih]

theorem getJs_setJs_self (r : Rec) (k : String) (v : JsValue) :
    getJs (setJs r k v) k = v := by
  rw [setJs]
  by_cases hc : (r.map Prod.fst).contains k = true
  · rw [if_pos hc]
    have hmem : k ∈ r.map Prod.fst := by
      rw [List.contains_iff_exists_mem_beq] at hc
      obtain ⟨a, ha, hbeq⟩ := hc
      rw [beq_iff_eq.mp hbeq]
      exact ha
    rw [getJs, lookup_map_replace v hmem]
  · rw [if_neg hc]
    have hnone : r.lookup k = none := by
      cases hl : r.lookup k with
      | none => rfl
      | some w =>
        exfalso
        apply hc
        have hmem : (k, w) ∈ r := lookup_mem hl
        rw [List.contains_iff_exists_mem_beq]
        exact ⟨k, List.mem_map_of_mem Prod.fst hmem, beq_self_eq_true k⟩
    rw [getJs, lookup_append_single, hnone]
    simp

theorem getJs_setJs_ne (r : Rec) {k k' : String} (v : JsValue) (hne : k ≠ k') :
    getJs (setJs r k' v) k = getJs r k := by
  rw [setJs]
  by_cases hc : (r.map Prod.fst).contains k' = true
  · rw [if_pos hc, getJs, lookup_map_replace_ne v hne, getJs]
  · rw [if_neg hc, getJs, lookup_append_single, getJs]
    cases hl : r.lookup k with
    | none =>
      dsimp only
      rw [if_neg hne]
    | some w => rfl

theorem getJs_stampFold_not_mem (now : String) :
    ∀ (L : List String) (r : Rec) (k : String), k ∉ L →
      getJs (L.foldl (fun acc u => setJs acc u (.str now)) r) k = getJs r k := by
  intro L
  induction L with
  | nil =>
    intro r k _
    rfl
  | cons u us ih =>
    intro r k hk
    rw [List.foldl_cons]
    have hku : k ≠ u := fun h => hk (h ▸ List.mem_cons_self u us)
    have hkus : k ∉ us := fun h => hk (List.mem_cons_of_mem _ h)
    rw [ih _ k hkus, getJs_setJs_ne r (.str now) hku]

theorem getJs_stampFold_mem (now : String) :
    ∀ (L : List String) (r : Rec) (k : String), k ∈ L →
      getJs (L.foldl (fun acc u => setJs acc u (.str now)) r) k = .str now := by
  intro L
  induction L with
  | nil =>
    intro r k hk
    cases hk
  | cons u us ih =>
    intro r k hk
    rw [List.foldl_cons]
    by_cases hmem : k ∈ us
    · exact ih _ k hmem
    · have hku : k = u := by
        rcases List.mem_cons.mp hk with h | h
        · exact h
        · exact absurd h hmem
      subst hku
      rw [getJs_stampFold_not_mem now us _ k hmem, getJs_setJs_self]

/-- C8: the `#updates` list computed once at table construction is exactly
the updated-kind columns of the schema; before conversion, `update` and
`updateBy` stamp every such column in the row with the current timestamp;
`update` returns the updated row in user shape or none (undefined) when no
row matched, and `updateBy` returns all updated rows in user shape. -/
theorem C8_update_stamping (schema : RowSchema) (now : String)
    (store : Int → Rec → List Rec) (store2 : Rec → Rec → List Rec)
    (id : Int) (row conditions : Rec) :
    (∀ k, k ∈ updatesList schema ↔
      k ∈ schema.map Prod.fst ∧ (lookupCol schema k).kind = .updated) ∧
    (∀ k ∈ updatesList schema, getJs (stampRow schema now row) k = .str now) ∧
    (∀ dbRow, updateToDatabase schema (stampRow schema now row) = .ok dbRow →
      (store id dbRow = [] → (updateRun schema now store id row).result = .ok none) ∧
      (∀ r rest, store id dbRow = r :: rest →
        (updateRun schema now store id row).result = (selectToUser schema r).map some)) ∧
    (∀ dbCond dbRow, whereToDatabase schema conditions = .ok dbCond →
      updateToDatabase schema (stampRow schema now row) = .ok dbRow →
      (updateByRun schema now store2 conditions row).result =
        selectToUserArr schema (store2 dbCond dbRow)) := by
  refine ⟨?_, ?_, ?_, ?_⟩
  · intro k
    rw [updatesList, List.mem_filter]
    simp
  · intro k hk
    exact getJs_stampFold_mem now _ row k hk
  · intro dbRow hconv
    constructor
    · intro hst
      rw [updateRun, hconv]
      dsimp only
      rw [hst]
    · intro r rest hst
      rw [updateRun, hconv]
      dsimp only
      rw [hst]
  · intro dbCond dbRow hcond hconv
    rw [updateByRun]
    dsimp only
    rw [hcond]
    dsimp only
    rw [hconv]

/-- C8, witness: a schema with one updated-kind column: the stamp lands in
the row, and an empty store match yields `.ok none` (undefined). -/
theorem C8_update_stamping_witness :
    getJs (stampRow [("u", updatedColumn id id), ("name", stringColumn true)] "T"
      [("name", JsValue.str "x")]) "u" = .str "T" ∧
    (updateRun [("u", updatedColumn id id), ("name", stringColumn true)] "T"
      (fun _ _ => []) 1 [("name", JsValue.str "x")]).result = .ok none := by
  have h := C8_update_stamping [("u", updatedColumn id id), ("name", stringColumn true)]
    "T" (fun _ _ => []) (fun _ _ => []) 1 [("name", JsValue.str "x")] []
  exact ⟨h.2.1 "u" (by decide),
    (h.2.2.1 [("name", JsValue.str "x")] (by decide)).1 rfl⟩

/-- C10: `update`/`updateBy` mutate the caller's row argument: after the
call the caller's object is the stamped row — each updated-kind column now
holds the timestamp, all other keys keep their previous values (for
`updateBy` the stamp happens once the where-condition has converted). -/
theorem C10_update_mutates_caller (schema : RowSchema) (now : String)
    (store : Int → Rec → List Rec) (store2 : Rec → Rec → List Rec)
    (id : Int) (row conditions : Rec) :
    (updateRun schema now store id row).callerRow = stampRow schema now row ∧
    (∀ dbCond, whereToDatabase schema conditions = .ok dbCond →
      (updateByRun schema now store2 conditions row).callerRow =
        stampRow schema now row) ∧
    (∀ k ∈ updatesList schema, getJs (stampRow schema now row) k = .str now) ∧
    (∀ k, k ∉ updatesList schema →
      getJs (stampRow schema now row) k = getJs row k) := by
  refine ⟨?_, ?_, ?_, ?_⟩
  · rw [updateRun]
    cases hconv : updateToDatabase schema (stampRow schema now row) with
    | error e => rfl
    | ok dbRow =>
      dsimp only
      cases hst : store id dbRow with
      | nil => rfl
      | cons r rest => rfl
  · intro dbCond hcond
    rw [updateByRun]
    dsimp only
    rw [hcond]
    dsimp only
    cases hconv : updateToDatabase schema (stampRow schema now row) with
    | error e => rfl
    | ok dbRow => rfl
  · intro k hk
    exact getJs_stampFold_mem now _ row k hk
  · intro k hk
    exact getJs_stampFold_not_mem now _ row k hk

/-- C10, witness: the caller-visible row after `update` is the stamped
row, with the non-updated column untouched. -/
theorem C10_update_mutates_caller_witness :
    (updateRun [("u", updatedColumn id id), ("name", stringColumn true)] "T"
      (fun _ _ => []) 1 [("name", JsValue.str "x")]).callerRow =
      stampRow [("u", updatedColumn id id), ("name", stringColumn true)] "T"
        [("name", JsValue.str "x")] ∧
    getJs (stampRow [("u", updatedColumn id id), ("name", stringColumn true)] "T"
      [("name", JsValue.str "x")]) "name" = JsValue.str "x" := by
  have h := C10_update_mutates_caller
    [("u", updatedColumn id id), ("name", stringColumn true)] "T"
    (fun _ _ => []) (fun _ _ => []) 1 [("name", JsValue.str "x")] []
  refine ⟨h.1, ?_⟩
  have := h.2.2.2 "name" (by decide)
  rw [this]
  decide

end Dbcor
